import Mathlib

/-!
Shallow embedding of the Vortexje panel-method solver
(src/vortexje: Solver implementation, boundary-layer interface).

The model uses exact rational arithmetic.  Geometry (Surface, LiftingSurface,
Wake meshes), boundary-layer implementations beyond the provided dummy, and
the Eigen iterative linear solver are external collaborators of the
repository; they enter the model as function-valued fields of the
environment.  Everything the solver itself computes — source coefficients,
matrix assembly, the Kutta wake closure, surface velocities, potentials,
pressure coefficients, the boundary-layer outer loop, wake convection, and
the panel lookup queries — is translated from the source.
-/

namespace VortexjeModel

/-- Rational stand-in for the Eigen Vector3d values flowing through the solver. -/
structure Vec3 where
  x : ℚ
  y : ℚ
  z : ℚ
deriving DecidableEq

def Vec3.zero : Vec3 := ⟨0, 0, 0⟩

instance : Inhabited Vec3 := ⟨Vec3.zero⟩

def Vec3.add (a b : Vec3) : Vec3 := ⟨a.x + b.x, a.y + b.y, a.z + b.z⟩

def Vec3.sub (a b : Vec3) : Vec3 := ⟨a.x - b.x, a.y - b.y, a.z - b.z⟩

def Vec3.neg (a : Vec3) : Vec3 := ⟨-a.x, -a.y, -a.z⟩

def Vec3.smul (c : ℚ) (a : Vec3) : Vec3 := ⟨c * a.x, c * a.y, c * a.z⟩

def Vec3.dot (a b : Vec3) : ℚ := a.x * b.x + a.y * b.y + a.z * b.z

/-- Eigen squaredNorm of a 3-vector. -/
def Vec3.squaredNorm (a : Vec3) : ℚ := a.dot a

instance : Add Vec3 := ⟨Vec3.add⟩
instance : Sub Vec3 := ⟨Vec3.sub⟩
instance : Neg Vec3 := ⟨Vec3.neg⟩
instance : SMul ℚ Vec3 := ⟨Vec3.smul⟩
instance : Zero Vec3 := ⟨Vec3.zero⟩

theorem Vec3.ext_iff {a b : Vec3} : a = b ↔ a.x = b.x ∧ a.y = b.y ∧ a.z = b.z := by
  cases a; cases b; simp

theorem Vec3.add_def (a b : Vec3) : a + b = ⟨a.x + b.x, a.y + b.y, a.z + b.z⟩ := rfl

theorem Vec3.sub_def (a b : Vec3) : a - b = ⟨a.x - b.x, a.y - b.y, a.z - b.z⟩ := rfl

theorem Vec3.neg_def (a : Vec3) : -a = ⟨-a.x, -a.y, -a.z⟩ := rfl

theorem Vec3.smul_def (c : ℚ) (a : Vec3) : c • a = ⟨c * a.x, c * a.y, c * a.z⟩ := rfl

theorem Vec3.zero_def : (0 : Vec3) = ⟨0, 0, 0⟩ := rfl

instance : AddCommMonoid Vec3 where
  add_assoc a b c := by
    simp [Vec3.add_def, Vec3.ext_iff]; refine ⟨by ring, by ring, by ring⟩
  zero_add a := by simp [Vec3.add_def, Vec3.zero_def]
  add_zero a := by simp [Vec3.add_def, Vec3.zero_def]
  add_comm a b := by
    simp [Vec3.add_def, Vec3.ext_iff]; refine ⟨by ring, by ring, by ring⟩
  nsmul := nsmulRec

/-! ### Generic dense-array write helpers

The C++ solver stores per-panel data in dense Eigen vectors and writes them
with indexed loops; we model an Eigen vector as a total function on ℕ and a
loop of writes as iterated single-cell updates. -/

/-- Single-cell overwrite of a dense vector. -/
def updateAt {α : Type} (f : ℕ → α) (i : ℕ) (v : α) : ℕ → α :=
  fun j => if j = i then v else f j

/-- Single-cell overwrite of a doubly indexed store. -/
def updateAt2 {α : Type} (f : ℕ → ℕ → α) (i j : ℕ) (v : α) : ℕ → ℕ → α :=
  fun a b => if a = i ∧ b = j then v else f a b

/-- The loop `for i in [0, n): arr(offset + i) = g i`, as iterated writes. -/
def writeLoop {α : Type} (f : ℕ → α) (offset : ℕ) (g : ℕ → α) : ℕ → (ℕ → α)
  | 0 => f
  | n + 1 => updateAt (writeLoop f offset g n) (offset + n) (g n)

theorem updateAt_same {α : Type} (f : ℕ → α) (i : ℕ) (v : α) :
    updateAt f i v i = v := by simp [updateAt]

theorem updateAt_other {α : Type} (f : ℕ → α) (i j : ℕ) (v : α) (h : j ≠ i) :
    updateAt f i v j = f j := by simp [updateAt, h]

theorem writeLoop_lt {α : Type} (f : ℕ → α) (offset : ℕ) (g : ℕ → α) (n i : ℕ)
    (h : i < n) : writeLoop f offset g n (offset + i) = g i := by
  induction n with
  | zero => omega
  | succ m ih =>
    by_cases hi : i = m
    · subst hi; simp [writeLoop, updateAt_same]
    · have : i < m := by omega
      simp only [writeLoop]
      rw [updateAt_other]
      · exact ih this
      · omega

theorem writeLoop_out {α : Type} (f : ℕ → α) (offset : ℕ) (g : ℕ → α) (n p : ℕ)
    (h : p < offset ∨ offset + n ≤ p) : writeLoop f offset g n p = f p := by
  induction n with
  | zero => rfl
  | succ m ih =>
    simp only [writeLoop]
    rw [updateAt_other]
    · exact ih (by omega)
    · omega

theorem writeLoop_char {α : Type} (f : ℕ → α) (offset : ℕ) (g : ℕ → α) (n p : ℕ) :
    writeLoop f offset g n p =
      if offset ≤ p ∧ p < offset + n then g (p - offset) else f p := by
  by_cases h : offset ≤ p ∧ p < offset + n
  · simp only [if_pos h]
    have hp : p = offset + (p - offset) := by omega
    conv_lhs => rw [hp]
    exact writeLoop_lt f offset g n (p - offset) (by omega)
  · simp only [if_neg h]
    exact writeLoop_out f offset g n p (by omega)

/-! ### Environment: parameters, geometry capabilities, bodies

These mirror the data model the Solver reads: the process-wide Parameters
namespace, the Surface / LiftingSurface / Wake geometry capabilities
(external mesh code, hence function-valued fields), the boundary-layer
capability, and the Body aggregates added through add_body. -/

/-- Process-wide numeric tunables and switches (vortexje/parameters). -/
structure Params where
  convect_wake : Bool
  static_wake_length : ℚ
  wake_emission_follow_bisector : Bool
  wake_emission_distance_factor : ℚ
  unsteady_bernoulli : Bool
  marcov_surface_velocity : Bool
  max_boundary_layer_iterations : ℕ
  boundary_layer_iteration_tolerance : ℚ
  linear_solver_max_iterations : ℕ
  linear_solver_tolerance : ℚ

/-- Geometry capability of one non-wake Surface (external mesh code).
sd_influence_on takes (observer surface id, observer panel, own panel) and
returns the (source, doublet) influence pair;  sd_influence_at is the
point-observer variant;  the unit-velocity fields are the elementary
velocity influences;  scalar_field_gradient is the tangential gradient
operator applied to a dense coefficient vector at a given offset. -/
structure SurfaceGeom where
  id : ℕ
  n_panels : ℕ
  panel_normal : ℕ → Vec3
  panel_collocation_point : ℕ → Bool → Vec3
  scalar_field_gradient : (ℕ → ℚ) → ℕ → ℕ → Vec3
  sd_influence_on : ℕ → ℕ → ℕ → ℚ × ℚ
  sd_influence_at : Vec3 → ℕ → ℚ × ℚ
  vortex_ring_unit_velocity_at : Vec3 → ℕ → Vec3
  source_unit_velocity_at : Vec3 → ℕ → Vec3

/-- Spanwise trailing-edge topology of a LiftingSurface. -/
structure LiftTopo where
  n_spanwise_panels : ℕ
  n_spanwise_nodes : ℕ
  trailing_edge_upper_panel : ℕ → ℕ
  trailing_edge_lower_panel : ℕ → ℕ

/-- Wake geometry capability as seen inside one call to solve: the panel
count is fixed for the duration of the solve, the influence functions are
the external wake-mesh operators. -/
structure WakeRec where
  n_panels : ℕ
  vortex_ring_unit_velocity_on : ℕ → ℕ → ℕ → Vec3
  doublet_influence_on : ℕ → ℕ → ℕ → ℚ
  vortex_ring_unit_velocity_at : Vec3 → ℕ → Vec3
  doublet_influence_at : Vec3 → ℕ → ℚ

/-- One non-wake surface bundle: geometry plus its boundary layer.
bl_is_dummy is the runtime-type discrimination against DummyBoundaryLayer;
bl_recalculate is the external recalculation: from the surface-velocity
slice it yields the new per-panel blowing velocity. -/
structure SurfaceRec where
  geom : SurfaceGeom
  bl_is_dummy : Bool
  bl_recalculate : (ℕ → Vec3) → (ℕ → ℚ)

/-- One lifting-surface bundle of a Body: surface data, spanwise topology
and the attached wake. -/
structure LiftingRec where
  surf : SurfaceRec
  topo : LiftTopo
  wake : WakeRec

/-- A Body: a kinematic frame owning non-lifting surfaces and
lifting-surface bundles.  panel_kinematic_velocity takes (surface id,
panel index). -/
structure BodyEnv where
  velocity : Vec3
  panel_kinematic_velocity : ℕ → ℕ → Vec3
  nls : List SurfaceRec
  lss : List LiftingRec

/-- Outcome of one Eigen BiCGSTAB solve: solution with iteration count and
estimated error, or failure with the same diagnostics. -/
inductive LinResult where
  | success (mu : ℕ → ℚ) (iters : ℕ) (err : ℚ)
  | failure (iters : ℕ) (err : ℚ)

/-- The whole solver environment: parameters, freestream, the added bodies
in add_body order, the external iterative linear solver (matrix, right-hand
side, warm-start guess), and the indeterminate initial value of the
default-constructed Eigen vector read by the Marcov branch of
compute_surface_velocity (that variable is shadowed in the source and never
initialized). -/
structure SolverEnv where
  params : Params
  freestream_velocity : Vec3
  bodies : List BodyEnv
  linSolve : (ℕ → ℕ → ℚ) → (ℕ → ℚ) → (ℕ → ℚ) → LinResult
  uninitialized_vector : Vec3

/-- Messages the solver writes to the standard error stream. -/
inductive Msg where
  | linSolveFailed (iters : ℕ) (err : ℚ)
  | potentialPanelNotFound (panel : ℕ) (surfaceId : ℕ)
  | velocityPanelNotFound (panel : ℕ) (surfaceId : ℕ)
  | pressurePanelNotFound (panel : ℕ) (surfaceId : ℕ)
deriving DecidableEq

/-- The mutable solver state: the dense coefficient vectors, the per-wake
doublet arrays (indexed by the flat position of the lifting surface across
all bodies), the per-surface blowing velocities held by the boundary-layer
objects, and the standard-error log. -/
structure SolverState where
  doublet : ℕ → ℚ
  source : ℕ → ℚ
  phi : ℕ → ℚ
  phiPrev : ℕ → ℚ
  pressure : ℕ → ℚ
  surfVel : ℕ → Vec3
  wakeDoublet : ℕ → ℕ → ℚ
  blowing : ℕ → ℕ → ℚ
  cerr : List Msg

/-! ### Derived surface lists and offsets -/

/-- The solver's non_wake_surfaces list paired with the owning body:
add_body appends, per body, the non-lifting surfaces then the lifting
surfaces (surface_id_to_body gives the body; we carry it in the pair). -/
def nonWakeSurfaces (env : SolverEnv) : List (BodyEnv × SurfaceRec) :=
  env.bodies.flatMap fun b => b.nls.map (fun d => (b, d)) ++ b.lss.map (fun l => (b, l.surf))

/-- Total number of non-wake panels (the solver's n_non_wake_panels). -/
def nPanels (env : SolverEnv) : ℕ :=
  ((nonWakeSurfaces env).map (fun p => p.2.geom.n_panels)).sum

/-- All lifting surfaces of all bodies, with their flat index: the order in
which the solver's per-body loops visit them. -/
def liftingEnum (env : SolverEnv) : List (ℕ × LiftingRec) :=
  (env.bodies.flatMap fun b => b.lss).enum

/-- Panel count of a list of non-lifting surface bundles. -/
def panelsNL (b : BodyEnv) : ℕ := (b.nls.map (fun d => d.geom.n_panels)).sum

/-- Panel count of the lifting surfaces of a body. -/
def panelsLS (b : BodyEnv) : ℕ := (b.lss.map (fun l => l.surf.geom.n_panels)).sum

/-- Total non-wake panel count of one body. -/
def bodyPanels (b : BodyEnv) : ℕ := panelsNL b + panelsLS b

/-- The triples (flat lifting-surface index, global doublet-vector offset,
bundle), produced exactly as the solver's per-body offset loops do: for
each body, skip the non-lifting panels, then visit the lifting surfaces in
order accumulating their panel counts. -/
def liftTriplesBody (f off : ℕ) : List LiftingRec → List (ℕ × ℕ × LiftingRec)
  | [] => []
  | l :: rest => (f, off, l) :: liftTriplesBody (f + 1) (off + l.surf.geom.n_panels) rest

def liftTriplesAux (f off : ℕ) : List BodyEnv → List (ℕ × ℕ × LiftingRec)
  | [] => []
  | b :: rest =>
      liftTriplesBody f (off + panelsNL b) b.lss ++
        liftTriplesAux (f + b.lss.length) (off + bodyPanels b) rest

def liftTriples (env : SolverEnv) : List (ℕ × ℕ × LiftingRec) :=
  liftTriplesAux 0 0 env.bodies

/-! ### Inhabited instances (defaults for getD-style access) -/

instance : Inhabited SurfaceGeom :=
  ⟨⟨0, 0, fun _ => Vec3.zero, fun _ _ => Vec3.zero, fun _ _ _ => Vec3.zero,
    fun _ _ _ => (0, 0), fun _ _ => (0, 0), fun _ _ => Vec3.zero, fun _ _ => Vec3.zero⟩⟩

instance : Inhabited SurfaceRec := ⟨⟨default, true, fun _ _ => 0⟩⟩

instance : Inhabited LiftTopo := ⟨⟨0, 0, id, id⟩⟩

instance : Inhabited WakeRec :=
  ⟨⟨0, fun _ _ _ => Vec3.zero, fun _ _ _ => 0, fun _ _ => Vec3.zero, fun _ _ => 0⟩⟩

instance : Inhabited LiftingRec := ⟨⟨default, default, default⟩⟩

instance : Inhabited BodyEnv := ⟨⟨Vec3.zero, fun _ _ => Vec3.zero, [], []⟩⟩

/-! ### Solver compute functions (translated from the source) -/

/-- Inner loop of the wake contribution in Solver::compute_source_coefficient:
for k in [0, count): velocity -= wake.vortex_ring_unit_velocity(surface, panel, k)
* wake.doublet_coefficients[k], applied left to right. -/
def subWakeLoop (w : WakeRec) (wd : ℕ → ℚ) (surfId panel : ℕ) : ℕ → Vec3 → Vec3
  | 0, v => v
  | k + 1, v =>
      subWakeLoop w wd surfId panel k v - (wd k) • w.vortex_ring_unit_velocity_on surfId panel k

/-- Wake contribution pass of Solver::compute_source_coefficient: iterate
all bodies and their lifting surfaces, subtracting the influence of the old
wake panels (all but the newest strip). -/
def subAllWakes (env : SolverEnv) (s : SolverState) (surfId panel : ℕ) (v : Vec3) : Vec3 :=
  (liftingEnum env).foldl
    (fun acc fl =>
      subWakeLoop fl.2.wake (s.wakeDoublet fl.1) surfId panel
        (fl.2.wake.n_panels - fl.2.topo.n_spanwise_panels) acc)
    v

/-- Solver::compute_source_coefficient.  The boundary layer's
blowing_velocity is held per registered surface in the state (sIdx is the
surface's position in the non_wake_surfaces list). -/
def compute_source_coefficient (env : SolverEnv) (s : SolverState) (b : BodyEnv)
    (d : SurfaceRec) (sIdx panel : ℕ) (include_wake_influence : Bool) : ℚ :=
  let velocity0 := b.panel_kinematic_velocity d.geom.id panel - env.freestream_velocity
  let velocity :=
    if env.params.convect_wake ∧ include_wake_influence then
      subAllWakes env s d.geom.id panel velocity0
    else
      velocity0
  velocity.dot (d.geom.panel_normal panel) - s.blowing sIdx panel

/-- Panel-sum part of Solver::compute_disturbance_velocity over one surface. -/
def distVelSurfLoop (d : SurfaceRec) (dc sc : ℕ → ℚ) (offset : ℕ) (x : Vec3) :
    ℕ → Vec3 → Vec3
  | 0, g => g
  | i + 1, g =>
      distVelSurfLoop d dc sc offset x i g +
        (dc (offset + i)) • d.geom.vortex_ring_unit_velocity_at x i +
        (sc (offset + i)) • d.geom.source_unit_velocity_at x i

/-- Wake-sum part of Solver::compute_disturbance_velocity over one wake. -/
def distVelWakeLoop (w : WakeRec) (wd : ℕ → ℚ) (x : Vec3) : ℕ → Vec3 → Vec3
  | 0, g => g
  | i + 1, g => distVelWakeLoop w wd x i g + (wd i) • w.vortex_ring_unit_velocity_at x i

/-- Solver::compute_disturbance_velocity: gradient accumulated over all
non-wake surfaces, then over all wakes (the wake loop is guarded by
n_panels >= n_spanwise_panels as in the source). -/
def compute_disturbance_velocity (env : SolverEnv) (s : SolverState) (x : Vec3) : Vec3 :=
  let surfPart :=
    ((nonWakeSurfaces env).foldl
      (fun acc bd =>
        (distVelSurfLoop bd.2 s.doublet s.source acc.2 x bd.2.geom.n_panels acc.1,
         acc.2 + bd.2.geom.n_panels))
      ((0 : Vec3), 0)).1
  (liftingEnum env).foldl
    (fun acc fl =>
      if fl.2.wake.n_panels ≥ fl.2.topo.n_spanwise_panels then
        distVelWakeLoop fl.2.wake (s.wakeDoublet fl.1) x fl.2.wake.n_panels acc
      else
        acc)
    surfPart

/-- Panel-sum part of Solver::compute_disturbance_velocity_potential over one surface. -/
def distPotSurfLoop (d : SurfaceRec) (dc sc : ℕ → ℚ) (offset : ℕ) (x : Vec3) :
    ℕ → ℚ → ℚ
  | 0, phi => phi
  | i + 1, phi =>
      distPotSurfLoop d dc sc offset x i phi +
        (d.geom.sd_influence_at x i).2 * dc (offset + i) +
        (d.geom.sd_influence_at x i).1 * sc (offset + i)

/-- Wake-sum part of Solver::compute_disturbance_velocity_potential. -/
def distPotWakeLoop (w : WakeRec) (wd : ℕ → ℚ) (x : Vec3) : ℕ → ℚ → ℚ
  | 0, phi => phi
  | i + 1, phi => distPotWakeLoop w wd x i phi + w.doublet_influence_at x i * wd i

/-- Solver::compute_disturbance_velocity_potential. -/
def compute_disturbance_velocity_potential (env : SolverEnv) (s : SolverState) (x : Vec3) : ℚ :=
  let surfPart :=
    ((nonWakeSurfaces env).foldl
      (fun acc bd =>
        (distPotSurfLoop bd.2 s.doublet s.source acc.2 x bd.2.geom.n_panels acc.1,
         acc.2 + bd.2.geom.n_panels))
      ((0 : ℚ), 0)).1
  (liftingEnum env).foldl
    (fun acc fl => distPotWakeLoop fl.2.wake (s.wakeDoublet fl.1) x fl.2.wake.n_panels acc)
    surfPart

/-- Solver::velocity_potential: disturbance potential plus freestream term. -/
def velocity_potential (env : SolverEnv) (s : SolverState) (x : Vec3) : ℚ :=
  compute_disturbance_velocity_potential env s x + env.freestream_velocity.dot x

/-- Solver::compute_surface_velocity_potential for a panel of the surface at
doublet-vector offset `offset`, owned by body `b`. -/
def compute_surface_velocity_potential (env : SolverEnv) (s : SolverState) (b : BodyEnv)
    (d : SurfaceRec) (offset panel : ℕ) : ℚ :=
  if env.params.marcov_surface_velocity then
    velocity_potential env s (d.geom.panel_collocation_point panel false)
  else
    let phi := -s.doublet (offset + panel)
    let apparent_velocity := b.panel_kinematic_velocity d.geom.id panel - env.freestream_velocity
    phi - apparent_velocity.dot (d.geom.panel_collocation_point panel false)

/-- Solver::compute_surface_velocity_potential_time_derivative. -/
def compute_surface_velocity_potential_time_derivative (env : SolverEnv)
    (phi phiPrev : ℕ → ℚ) (offset panel : ℕ) (dt : ℚ) : ℚ :=
  if env.params.unsteady_bernoulli ∧ 0 < dt then
    (phi (offset + panel) - phiPrev (offset + panel)) / dt
  else
    0

/-- Solver::compute_surface_velocity.  In the source the Marcov branch
declares a new block-local variable that shadows the outer
tangential_velocity: the Marcov velocity is computed into the shadowing
local (the first let below) and discarded, and the outer variable is read
uninitialized; uninit is that indeterminate value. -/
def compute_surface_velocity (env : SolverEnv) (s : SolverState) (b : BodyEnv)
    (d : SurfaceRec) (offset panel : ℕ) (uninit : Vec3) : Vec3 :=
  let tangential_velocity :=
    if env.params.marcov_surface_velocity then
      let x := d.geom.panel_collocation_point panel false
      let shadowing_local :=
        compute_disturbance_velocity env s x -
          (1 / 2 : ℚ) • d.geom.scalar_field_gradient s.doublet offset panel
      let _ := shadowing_local
      uninit
    else
      -(d.geom.scalar_field_gradient s.doublet offset panel)
  let apparent_velocity := b.panel_kinematic_velocity d.geom.id panel - env.freestream_velocity
  let tv := tangential_velocity - apparent_velocity
  tv - (tv.dot (d.geom.panel_normal panel)) • d.geom.panel_normal panel

/-- Solver::compute_reference_velocity_squared. -/
def compute_reference_velocity_squared (env : SolverEnv) (b : BodyEnv) : ℚ :=
  (b.velocity - env.freestream_velocity).squaredNorm

/-- Solver::compute_pressure_coefficient. -/
def compute_pressure_coefficient (surface_velocity : Vec3) (dphidt v_ref_squared : ℚ) : ℚ :=
  1 - (surface_velocity.squaredNorm + 2 * dphidt) / v_ref_squared

/-! ### Influence matrix assembly and right-hand side -/

/-- Resolve a global panel index to its (body, surface, local panel) by the
same linear scan over the registered surfaces the solver uses. -/
def locatePanel : List (BodyEnv × SurfaceRec) → ℕ → Option (BodyEnv × SurfaceRec × ℕ)
  | [], _ => none
  | (b, d) :: rest, p =>
      if p < d.geom.n_panels then some (b, d, p) else locatePanel rest (p - d.geom.n_panels)

/-- Base doublet-influence entry A(r, c) before the Kutta wake correction:
for the row panel (surface d_row, panel i) and column panel (surface d_col,
panel j), the source surface's source_and_doublet_influence on the observer
(the doublet component). -/
def baseDoublet (env : SolverEnv) (r c : ℕ) : ℚ :=
  match locatePanel (nonWakeSurfaces env) r, locatePanel (nonWakeSurfaces env) c with
  | some (_, dr, i), some (_, dc, j) => (dc.geom.sd_influence_on dr.geom.id i j).2
  | _, _ => 0

/-- Source-influence entry of the auxiliary matrix. -/
def sigmaMatrix (env : SolverEnv) (r c : ℕ) : ℚ :=
  match locatePanel (nonWakeSurfaces env) r, locatePanel (nonWakeSurfaces env) c with
  | some (_, dr, i), some (_, dc, j) => (dc.geom.sd_influence_on dr.geom.id i j).1
  | _, _ => 0

/-- Kutta correction added to A(r, c): for every lifting surface at global
offset `off` and every spanwise station j, the newest-strip wake panel's
doublet influence is added into the trailing-edge upper column and
subtracted from the lower column.  This is the entrywise reading of the
accumulation loops in Solver::solve. -/
def kuttaCorrection (env : SolverEnv) (r c : ℕ) : ℚ :=
  match locatePanel (nonWakeSurfaces env) r with
  | none => 0
  | some (_, dr, i) =>
      ((liftTriples env).map fun t =>
        ∑ j ∈ Finset.range t.2.2.topo.n_spanwise_panels,
          t.2.2.wake.doublet_influence_on dr.geom.id i
              (t.2.2.wake.n_panels - t.2.2.topo.n_spanwise_panels + j) *
            ((if t.2.1 + t.2.2.topo.trailing_edge_upper_panel j = c then 1 else 0) -
              (if t.2.1 + t.2.2.topo.trailing_edge_lower_panel j = c then 1 else 0))).sum

/-- The assembled left-hand-side matrix A of the Dirichlet system. -/
def doubletMatrix (env : SolverEnv) : ℕ → ℕ → ℚ :=
  fun r c => baseDoublet env r c + kuttaCorrection env r c

/-- The right-hand side b = source_influence_coefficients * source_coefficients. -/
def rhsVector (env : SolverEnv) (src : ℕ → ℚ) : ℕ → ℚ :=
  fun r => ∑ c ∈ Finset.range (nPanels env), sigmaMatrix env r c * src c

/-! ### The phases of Solver::solve -/

/-- Source-distribution pass: for each registered surface at its offset,
write compute_source_coefficient into the source vector. -/
def sourceWriteList (env : SolverEnv) (s : SolverState) (incl : Bool) :
    List (BodyEnv × SurfaceRec) → ℕ → ℕ → (ℕ → ℚ) → (ℕ → ℚ)
  | [], _, _, src => src
  | (b, d) :: rest, off, sIdx, src =>
      sourceWriteList env s incl rest (off + d.geom.n_panels) (sIdx + 1)
        (writeLoop src off (fun i => compute_source_coefficient env s b d sIdx i incl)
          d.geom.n_panels)

/-- Phase: recompute the whole source distribution (with or without the
influence of the old wake panels). -/
def computeSourcesPhase (env : SolverEnv) (incl : Bool) (s : SolverState) : SolverState :=
  { s with source := sourceWriteList env s incl (nonWakeSurfaces env) 0 0 s.source }

/-- Kutta closure for one lifting surface: for i in [0, n_spanwise_panels),
wake.doublet_coefficients[n_panels - n_spanwise_panels + i] :=
mu(offset + upper i) - mu(offset + lower i). -/
def wakeWriteLSLoop (mu : ℕ → ℚ) (f off : ℕ) (l : LiftingRec) (wd : ℕ → ℕ → ℚ) :
    ℕ → (ℕ → ℕ → ℚ)
  | 0 => wd
  | i + 1 =>
      updateAt2 (wakeWriteLSLoop mu f off l wd i) f
        (l.wake.n_panels - l.topo.n_spanwise_panels + i)
        (mu (off + l.topo.trailing_edge_upper_panel i) -
          mu (off + l.topo.trailing_edge_lower_panel i))

def wakeWriteLS (mu : ℕ → ℚ) (f off : ℕ) (l : LiftingRec) (wd : ℕ → ℕ → ℚ) : ℕ → ℕ → ℚ :=
  wakeWriteLSLoop mu f off l wd l.topo.n_spanwise_panels

/-- Kutta closure over all lifting surfaces, visiting them with the same
offset bookkeeping as the solver's per-body loops (liftTriples). -/
def wakeDoubletWrites (mu : ℕ → ℚ) : List (ℕ × ℕ × LiftingRec) → (ℕ → ℕ → ℚ) → (ℕ → ℕ → ℚ)
  | [], wd => wd
  | t :: rest, wd => wakeDoubletWrites mu rest (wakeWriteLS mu t.1 t.2.1 t.2.2 wd)

/-- Phase: set the newest wake panel doublet coefficients from the
trailing-edge jump of the just-computed doublet vector. -/
def wakeDoubletPhase (env : SolverEnv) (s : SolverState) : SolverState :=
  { s with wakeDoublet := wakeDoubletWrites s.doublet (liftTriples env) s.wakeDoublet }

/-- Surface-velocity pass over the registered surfaces. -/
def surfVelWriteList (env : SolverEnv) (s : SolverState) :
    List (BodyEnv × SurfaceRec) → ℕ → (ℕ → Vec3) → (ℕ → Vec3)
  | [], _, sv => sv
  | (b, d) :: rest, off, sv =>
      surfVelWriteList env s rest (off + d.geom.n_panels)
        (writeLoop sv off
          (fun i => compute_surface_velocity env s b d off i env.uninitialized_vector)
          d.geom.n_panels)

/-- Phase: compute the surface velocity distribution. -/
def surfVelPhase (env : SolverEnv) (s : SolverState) : SolverState :=
  { s with surfVel := surfVelWriteList env s (nonWakeSurfaces env) 0 s.surfVel }

/-- Boundary-layer recomputation pass: for each surface whose boundary layer
is not the dummy, recalculate it from the surface-velocity slice; returns
the new blowing store and whether any non-dummy boundary layer was found. -/
def recalcBLList (s : SolverState) :
    List (BodyEnv × SurfaceRec) → ℕ → ℕ → (ℕ → ℕ → ℚ) × Bool → (ℕ → ℕ → ℚ) × Bool
  | [], _, _, acc => acc
  | (_, d) :: rest, off, sIdx, acc =>
      let acc' :=
        if d.bl_is_dummy then
          acc
        else
          (fun a b =>
            if a = sIdx then d.bl_recalculate (fun i => s.surfVel (off + i)) b else acc.1 a b,
           true)
      recalcBLList s rest (off + d.geom.n_panels) (sIdx + 1) acc'

/-- Phase: recompute the boundary layers; the Bool is have_boundary_layer. -/
def recalcBLPhase (env : SolverEnv) (s : SolverState) : SolverState × Bool :=
  let r := recalcBLList s (nonWakeSurfaces env) 0 0 (s.blowing, false)
  ({ s with blowing := r.1 }, r.2)

/-- Squared Euclidean norm of the doublet increment over the N panels. -/
def sqDiffNorm (a b : ℕ → ℚ) (n : ℕ) : ℚ :=
  ∑ i ∈ Finset.range n, (a i - b i) ^ 2

/-- Convergence test of the boundary-layer outer loop: only from the second
iteration onward, on the Euclidean norm of the doublet increment.  The
source compares norm < tolerance; with a nonnegative tolerance this equals
the squared comparison used here, which keeps the model inside ℚ. -/
def convergedAt (env : SolverEnv) (iter : ℕ) (nsq : ℚ) : Bool :=
  decide (0 < iter) &&
    decide (nsq < env.params.boundary_layer_iteration_tolerance ^ 2)

/-- Outcome of one iteration of the boundary-layer outer loop of Solver::solve. -/
inductive StepRes where
  | failStep (s : SolverState)
  | doneStep (s : SolverState)
  | contStep (s : SolverState)

/-- The state after the source pass of an iteration (the state in which the
linear solve is attempted). -/
def sourcesState (env : SolverEnv) (s : SolverState) : SolverState :=
  computeSourcesPhase env true s

/-- The linear-solve call of an iteration: A from the assembly, b from the
fresh sources, warm start from the current doublet vector. -/
def linCall (env : SolverEnv) (s1 : SolverState) : LinResult :=
  env.linSolve (doubletMatrix env) (rhsVector env s1.source) s1.doublet

/-- Tail of an outer-loop iteration after a successful linear solve:
convergence check (second iteration onward), doublet update, Kutta closure,
surface velocities, exit tests, boundary-layer recomputation. -/
def stepSuccess (env : SolverEnv) (iter : ℕ) (s1 : SolverState) (muNew : ℕ → ℚ) : StepRes :=
  let converged := convergedAt env iter (sqDiffNorm muNew s1.doublet (nPanels env))
  let s2 := { s1 with doublet := muNew }
  let s3 := wakeDoubletPhase env s2
  let s4 := surfVelPhase env s3
  if converged then StepRes.doneStep s4
  else if env.params.max_boundary_layer_iterations < iter then StepRes.doneStep s4
  else
    let r := recalcBLPhase env s4
    if r.2 then StepRes.contStep r.1 else StepRes.doneStep r.1

/-- One iteration of the boundary-layer outer loop (the body of the
while(true) loop in Solver::solve). -/
def iterStep (env : SolverEnv) (iter : ℕ) (s : SolverState) : StepRes :=
  let s1 := sourcesState env s
  match linCall env s1 with
  | LinResult.failure it er =>
      StepRes.failStep { s1 with cerr := Msg.linSolveFailed it er :: s1.cerr }
  | LinResult.success muNew _ _ => stepSuccess env iter s1 muNew

/-- Result of running the outer loop to completion. -/
inductive LoopRes where
  | fail (s : SolverState)
  | ok (s : SolverState)
  | exhausted (s : SolverState)

/-- The outer loop, fuel-indexed.  The loop of the source needs no fuel:
every iteration either exits or increments the iteration counter, which is
capped; the fuel argument makes the recursion structural and is proved
sufficient below (solveLoop_not_exhausted). -/
def solveLoop (env : SolverEnv) : ℕ → ℕ → SolverState → LoopRes
  | 0, _, s => LoopRes.exhausted s
  | fuel + 1, iter, s =>
      match iterStep env iter s with
      | StepRes.failStep s' => LoopRes.fail s'
      | StepRes.doneStep s' => LoopRes.ok s'
      | StepRes.contStep s' => solveLoop env fuel (iter + 1) s'

/-- Potential-and-pressure inner loop over one surface's panels: write the
surface potential, then from the just-written value the time derivative,
then the pressure coefficient (lines of the pressure pass of Solver::solve). -/
def phiPressureLoop (env : SolverEnv) (s : SolverState) (b : BodyEnv) (d : SurfaceRec)
    (off : ℕ) (vref2 dt : ℚ) : ℕ → (ℕ → ℚ) × (ℕ → ℚ) → (ℕ → ℚ) × (ℕ → ℚ)
  | 0, pp => pp
  | i + 1, pp =>
      let pp1 := phiPressureLoop env s b d off vref2 dt i pp
      let phi1 := updateAt pp1.1 (off + i) (compute_surface_velocity_potential env s b d off i)
      let dphidt :=
        compute_surface_velocity_potential_time_derivative env phi1 s.phiPrev off i dt
      let pr1 :=
        updateAt pp1.2 (off + i)
          (compute_pressure_coefficient (s.surfVel (off + i)) dphidt vref2)
      (phi1, pr1)

/-- Pressure pass over all registered surfaces. -/
def phiPressureList (env : SolverEnv) (s : SolverState) (dt : ℚ) :
    List (BodyEnv × SurfaceRec) → ℕ → (ℕ → ℚ) × (ℕ → ℚ) → (ℕ → ℚ) × (ℕ → ℚ)
  | [], _, pp => pp
  | (b, d) :: rest, off, pp =>
      phiPressureList env s dt rest (off + d.geom.n_panels)
        (phiPressureLoop env s b d off (compute_reference_velocity_squared env b) dt
          d.geom.n_panels pp)

/-- Phase: compute the surface potentials and the pressure distribution. -/
def phiPressurePhase (env : SolverEnv) (dt : ℚ) (s : SolverState) : SolverState :=
  let pp := phiPressureList env s dt (nonWakeSurfaces env) 0 (s.phi, s.pressure)
  { s with phi := pp.1, pressure := pp.2 }

/-- Solver::propagate: snapshot the surface potentials. -/
def propagate (s : SolverState) : SolverState :=
  { s with phiPrev := s.phi }

/-- Fuel that always suffices for the outer loop (iterations run while
iter <= max_boundary_layer_iterations, so at most max + 2 of them). -/
def loopFuel (env : SolverEnv) : ℕ :=
  env.params.max_boundary_layer_iterations + 2

/-- Solver::solve.  Returns the success flag and the final state.  The
exhausted branch is unreachable (solveLoop_not_exhausted) and mirrors the
failure exit. -/
def solve (env : SolverEnv) (dt : ℚ) (propagateFlag : Bool) (s : SolverState) :
    Bool × SolverState :=
  match solveLoop env (loopFuel env) 0 s with
  | LoopRes.fail s' => (false, s')
  | LoopRes.exhausted s' => (false, s')
  | LoopRes.ok s' =>
      let sA := if env.params.convect_wake then computeSourcesPhase env false s' else s'
      let sB := phiPressurePhase env dt sA
      let sC := if propagateFlag then propagate sB else sB
      (true, sC)

/-! ### Panel lookup queries

Solver::surface_velocity_potential, Solver::surface_velocity and
Solver::pressure_coefficient scan the registered surfaces accumulating the
offset; the source compares the queried surface by object identity, which
the model renders as id equality (surfaces have stable unique identity).
On fall-through they report on standard error and return zero.  Each query
returns the value together with the messages it wrote. -/

def surface_velocity_potential_scan (s : SolverState) (surfId panel : ℕ) :
    List (BodyEnv × SurfaceRec) → ℕ → ℚ × List Msg
  | [], _ => (0, [Msg.potentialPanelNotFound panel surfId])
  | (_, d) :: rest, off =>
      if surfId = d.geom.id then (s.phi (off + panel), [])
      else surface_velocity_potential_scan s surfId panel rest (off + d.geom.n_panels)

def surface_velocity_potential_query (env : SolverEnv) (s : SolverState)
    (surfId panel : ℕ) : ℚ × List Msg :=
  surface_velocity_potential_scan s surfId panel (nonWakeSurfaces env) 0

def surface_velocity_scan (s : SolverState) (surfId panel : ℕ) :
    List (BodyEnv × SurfaceRec) → ℕ → Vec3 × List Msg
  | [], _ => (Vec3.zero, [Msg.velocityPanelNotFound panel surfId])
  | (_, d) :: rest, off =>
      if surfId = d.geom.id then (s.surfVel (off + panel), [])
      else surface_velocity_scan s surfId panel rest (off + d.geom.n_panels)

def surface_velocity_query (env : SolverEnv) (s : SolverState)
    (surfId panel : ℕ) : Vec3 × List Msg :=
  surface_velocity_scan s surfId panel (nonWakeSurfaces env) 0

def pressure_coefficient_scan (s : SolverState) (surfId panel : ℕ) :
    List (BodyEnv × SurfaceRec) → ℕ → ℚ × List Msg
  | [], _ => (0, [Msg.pressurePanelNotFound panel surfId])
  | (_, d) :: rest, off =>
      if surfId = d.geom.id then (s.pressure (off + panel), [])
      else pressure_coefficient_scan s surfId panel rest (off + d.geom.n_panels)

def pressure_coefficient_query (env : SolverEnv) (s : SolverState)
    (surfId panel : ℕ) : ℚ × List Msg :=
  pressure_coefficient_scan s surfId panel (nonWakeSurfaces env) 0

/-! ### Wake convection (Solver::update_wakes, convecting mode)

The wake node buffers are the mutable data here.  The total velocity field
sampled at a point depends on the wake geometry, which lives in external
mesh code; the model therefore lets the environment provide the field as a
function of all wakes' node buffers.  update_properties and add_layer are
external Wake operations on the node buffer. -/

/-- Per-wake data for the convection model: the spanwise node count and
trailing-edge topology of the owning lifting surface, the owning body's
node kinematic velocity, the node buffer, and the external wake
operations. -/
structure WakeConv where
  n_spanwise_nodes : ℕ
  trailing_edge_node : ℕ → ℕ
  trailing_edge_bisector : ℕ → Vec3
  node_kinematic_velocity : ℕ → Vec3
  nodes : List Vec3
  update_properties : ℚ → List Vec3 → List Vec3
  add_layer : List Vec3 → List Vec3

/-- Environment of the convection model.  norm3 is the external Eigen
vector norm (a real square root, abstract over ℚ); velocityAt is
Solver::velocity as a function of all wakes' node buffers. -/
structure ConvEnv where
  freestream_velocity : Vec3
  wake_emission_distance_factor : ℚ
  wake_emission_follow_bisector : Bool
  norm3 : Vec3 → ℚ
  velocityAt : List (List Vec3) → Vec3 → Vec3

/-- Solver::compute_trailing_edge_vortex_displacement. -/
def compute_trailing_edge_vortex_displacement (env : ConvEnv) (w : WakeConv)
    (index : ℕ) (dt : ℚ) : Vec3 :=
  let apparent_velocity :=
    w.node_kinematic_velocity (w.trailing_edge_node index) - env.freestream_velocity
  let wake_velocity :=
    if env.wake_emission_follow_bisector then
      (env.norm3 apparent_velocity) • w.trailing_edge_bisector index
    else
      -apparent_velocity
  (env.wake_emission_distance_factor * dt) • wake_velocity

/-- The trailing-edge loop: for i in [0, n_spanwise_nodes):
nodes[n_nodes - n_spanwise_nodes + i] += displacement(i). -/
def teDisplaceLoop (env : ConvEnv) (w : WakeConv) (dt : ℚ) (base : ℕ) :
    ℕ → List Vec3 → List Vec3
  | 0, ns => ns
  | i + 1, ns =>
      let ns1 := teDisplaceLoop env w dt base i ns
      ns1.set (base + i)
        (ns1.getD (base + i) Vec3.zero + compute_trailing_edge_vortex_displacement env w i dt)

/-- The convection loop: for i in [0, n_nodes - n_spanwise_nodes):
nodes[i] += cached_velocity[i] * dt. -/
def convectLoop (dt : ℚ) (vels : List Vec3) : ℕ → List Vec3 → List Vec3
  | 0, ns => ns
  | i + 1, ns =>
      let ns1 := convectLoop dt vels i ns
      ns1.set i (ns1.getD i Vec3.zero + dt • vels.getD i Vec3.zero)

/-- Second pass of Solver::update_wakes for one wake: trailing-edge
displacement, convection of the remaining nodes by the cached velocities,
then the external update_properties and add_layer. -/
def convectWake (env : ConvEnv) (dt : ℚ) (w : WakeConv) (vels : List Vec3) : List Vec3 :=
  let n := w.nodes.length
  let ns1 := teDisplaceLoop env w dt (n - w.n_spanwise_nodes) w.n_spanwise_nodes w.nodes
  let ns2 := convectLoop dt vels (n - w.n_spanwise_nodes) ns1
  w.add_layer (w.update_properties dt ns2)

/-- Solver::update_wakes in convecting mode: first sample and cache the
velocity at every wake node with all wakes in their original state, then
convect each wake in turn. -/
def update_wakes (env : ConvEnv) (dt : ℚ) (wakes : List WakeConv) : List (List Vec3) :=
  let allNodes := wakes.map (fun w => w.nodes)
  let wake_velocities := wakes.map (fun w => w.nodes.map (env.velocityAt allNodes))
  (wakes.zip wake_velocities).map (fun p => convectWake env dt p.1 p.2)

/-! ### Specification-side definitions

These state, in closed form, what the specification asserts; the theorems
below compare them with the translated code. -/

/-- Panel count of a list of registered surface bundles. -/
def panelsOf (l : List (BodyEnv × SurfaceRec)) : ℕ :=
  (l.map (fun p => p.2.geom.n_panels)).sum

/-- The source coefficient as the specification words it: u starts as the
apparent panel velocity; exactly when wake convection is on and old-wake
influence is requested, u is reduced by the doublet-weighted vortex-ring
unit velocities of all pre-existing wake panels; the result is
u . n - v_blow. -/
def source_coefficient_claim (env : SolverEnv) (s : SolverState) (b : BodyEnv)
    (d : SurfaceRec) (sIdx panel : ℕ) (include_wake_influence : Bool) : ℚ :=
  let u0 := b.panel_kinematic_velocity d.geom.id panel - env.freestream_velocity
  let wakeSum : Vec3 :=
    ((liftingEnum env).map fun fl =>
      ∑ k ∈ Finset.range (fl.2.wake.n_panels - fl.2.topo.n_spanwise_panels),
        (s.wakeDoublet fl.1 k) • fl.2.wake.vortex_ring_unit_velocity_on d.geom.id panel k).sum
  let u := if env.params.convect_wake ∧ include_wake_influence then u0 - wakeSum else u0
  u.dot (d.geom.panel_normal panel) - s.blowing sIdx panel

/-- The Marcov-mode surface velocity as the specification words it:
full disturbance velocity at the collocation point minus half the
tangential doublet gradient, then minus the apparent velocity, with the
normal component projected out. -/
def marcov_surface_velocity_spec (env : SolverEnv) (s : SolverState) (b : BodyEnv)
    (d : SurfaceRec) (offset panel : ℕ) : Vec3 :=
  let x := d.geom.panel_collocation_point panel false
  let v_dist :=
    compute_disturbance_velocity env s x -
      (1 / 2 : ℚ) • d.geom.scalar_field_gradient s.doublet offset panel
  let tv := v_dist - (b.panel_kinematic_velocity d.geom.id panel - env.freestream_velocity)
  tv - (tv.dot (d.geom.panel_normal panel)) • d.geom.panel_normal panel

/-- Flat index of the lifting surface numbered li within the body numbered
bi, counting lifting surfaces across all bodies in addition order. -/
def liftFlatIdx (env : SolverEnv) (bi li : ℕ) : ℕ :=
  (((env.bodies.take bi).map (fun b => b.lss.length)).sum) + li

/-- Global doublet-vector offset of that lifting surface: the panels of all
preceding bodies, the non-lifting panels of its own body, and the panels of
the preceding lifting surfaces of its own body. -/
def liftGlobalOffset (env : SolverEnv) (bi li : ℕ) : ℕ :=
  ((env.bodies.take bi).map bodyPanels).sum + panelsNL (env.bodies.getD bi default) +
    ((((env.bodies.getD bi default).lss.take li).map (fun l => l.surf.geom.n_panels)).sum)

/-- Number of lifting surfaces across a body list. -/
def countLss (bodies : List BodyEnv) : ℕ :=
  (bodies.map (fun b => b.lss.length)).sum

/-- Exhaustion test on a loop outcome. -/
def isExhausted : LoopRes → Bool
  | LoopRes.exhausted _ => true
  | _ => false

/-- One continue-transition of the boundary-layer outer loop. -/
def loopStepRel (env : SolverEnv) (a b : SolverState) : Prop :=
  ∃ iter, iterStep env iter a = StepRes.contStep b

/-- Reachability along continue-transitions of the outer loop. -/
def LoopReach (env : SolverEnv) : SolverState → SolverState → Prop :=
  Relation.ReflTransGen (loopStepRel env)

/-- Wake nodes after one convecting update, as the specification words it:
trailing-edge-coincident nodes (the last n_spanwise_nodes) move by the
trailing-edge displacement function, every other node by the velocity
sampled at it in the pre-update state times dt. -/
def convectedNodesSpec (env : ConvEnv) (dt : ℚ) (allNodes : List (List Vec3))
    (w : WakeConv) : List Vec3 :=
  (List.range w.nodes.length).map fun j =>
    if j < w.nodes.length - w.n_spanwise_nodes then
      w.nodes.getD j Vec3.zero + dt • env.velocityAt allNodes (w.nodes.getD j Vec3.zero)
    else
      w.nodes.getD j Vec3.zero +
        compute_trailing_edge_vortex_displacement env w
          (j - (w.nodes.length - w.n_spanwise_nodes)) dt

/-- Whole-update specification: each wake's convected nodes, then the
external update_properties and add_layer, with every sampled velocity taken
in the pre-update state. -/
def updateWakesSpec (env : ConvEnv) (dt : ℚ) (wakes : List WakeConv) : List (List Vec3) :=
  wakes.map fun w =>
    w.add_layer (w.update_properties dt (convectedNodesSpec env dt (wakes.map (fun v => v.nodes)) w))

/-! ### Concrete instantiations used by the closed theorems -/

/-- A one-panel surface geometry with a simple linear gradient operator. -/
def cSurfGeom (idv : ℕ) : SurfaceGeom where
  id := idv
  n_panels := 1
  panel_normal := fun _ => ⟨0, 0, 1⟩
  panel_collocation_point := fun _ _ => Vec3.zero
  scalar_field_gradient := fun dc off p => ⟨dc (off + p), 0, 0⟩
  sd_influence_on := fun _ _ _ => (0, 1)
  sd_influence_at := fun _ _ => (0, 0)
  vortex_ring_unit_velocity_at := fun _ _ => Vec3.zero
  source_unit_velocity_at := fun _ _ => Vec3.zero

def cSurfRec (idv : ℕ) : SurfaceRec where
  geom := cSurfGeom idv
  bl_is_dummy := true
  bl_recalculate := fun _ _ => 0

def cBody : BodyEnv where
  velocity := Vec3.zero
  panel_kinematic_velocity := fun _ _ => Vec3.zero
  nls := [cSurfRec 7]
  lss := []

def cParams (marcov : Bool) : Params where
  convect_wake := true
  static_wake_length := 1
  wake_emission_follow_bisector := false
  wake_emission_distance_factor := 1
  unsteady_bernoulli := false
  marcov_surface_velocity := marcov
  max_boundary_layer_iterations := 2
  boundary_layer_iteration_tolerance := 1 / 1000
  linear_solver_max_iterations := 100
  linear_solver_tolerance := 1 / 1000000

/-- All-zero initial solver state (the state right after add_body). -/
def zeroState : SolverState where
  doublet := fun _ => 0
  source := fun _ => 0
  phi := fun _ => 0
  phiPrev := fun _ => 0
  pressure := fun _ => 0
  surfVel := fun _ => Vec3.zero
  wakeDoublet := fun _ _ => 0
  blowing := fun _ _ => 0
  cerr := []

/-- Quiescent environment: zero freestream, one resting body with one
one-panel surface, an exact solver that returns the zero solution. -/
def cenvZero : SolverEnv where
  params := cParams false
  freestream_velocity := Vec3.zero
  bodies := [cBody]
  linSolve := fun _ _ _ => LinResult.success (fun _ => 0) 1 0
  uninitialized_vector := Vec3.zero

/-- Environment whose linear solver always fails. -/
def cenvFail : SolverEnv where
  params := cParams false
  freestream_velocity := Vec3.zero
  bodies := [cBody]
  linSolve := fun _ _ _ => LinResult.failure 250 (3 / 2)
  uninitialized_vector := Vec3.zero

/-- Environment whose linear solver always succeeds (returns its guess). -/
def cenvOk : SolverEnv where
  params := cParams false
  freestream_velocity := Vec3.zero
  bodies := [cBody]
  linSolve := fun _ _ g => LinResult.success g 17 0
  uninitialized_vector := Vec3.zero

/-- Marcov-mode environment for the shadowing-bug theorem. -/
def cenvM : SolverEnv where
  params := cParams true
  freestream_velocity := Vec3.zero
  bodies := [cBody]
  linSolve := fun _ _ _ => LinResult.success (fun _ => 0) 1 0
  uninitialized_vector := Vec3.zero

/-- State with a prescribed constant doublet distribution. -/
def cstate (c : ℚ) : SolverState :=
  { zeroState with doublet := fun _ => c }

/-- A two-panel lifting-surface geometry. -/
def cLiftGeom : SurfaceGeom where
  id := 8
  n_panels := 2
  panel_normal := fun _ => ⟨0, 0, 1⟩
  panel_collocation_point := fun _ _ => Vec3.zero
  scalar_field_gradient := fun _ _ _ => Vec3.zero
  sd_influence_on := fun _ _ _ => (0, 1)
  sd_influence_at := fun _ _ => (0, 0)
  vortex_ring_unit_velocity_at := fun _ _ => Vec3.zero
  source_unit_velocity_at := fun _ _ => Vec3.zero

def cLiftTopo : LiftTopo where
  n_spanwise_panels := 1
  n_spanwise_nodes := 2
  trailing_edge_upper_panel := fun _ => 0
  trailing_edge_lower_panel := fun _ => 1

def cWake : WakeRec where
  n_panels := 1
  vortex_ring_unit_velocity_on := fun _ _ _ => Vec3.zero
  doublet_influence_on := fun _ _ _ => 0
  vortex_ring_unit_velocity_at := fun _ _ => Vec3.zero
  doublet_influence_at := fun _ _ => 0

def cLiftRec : LiftingRec where
  surf := { geom := cLiftGeom, bl_is_dummy := true, bl_recalculate := fun _ _ => 0 }
  topo := cLiftTopo
  wake := cWake

def cBodyLift : BodyEnv where
  velocity := Vec3.zero
  panel_kinematic_velocity := fun _ _ => Vec3.zero
  nls := []
  lss := [cLiftRec]

/-- Environment with one lifting surface; its solver returns the doublet
vector (5, 3, 3, ...). -/
def cenvLift : SolverEnv where
  params := cParams false
  freestream_velocity := Vec3.zero
  bodies := [cBodyLift]
  linSolve := fun _ _ _ => LinResult.success (fun i => if i = 0 then 5 else 3) 1 0
  uninitialized_vector := Vec3.zero

/-- The state produced by the first (and only) outer-loop iteration of
solve in cenvLift, starting from the zero state. -/
def cStepState : SolverState :=
  surfVelPhase cenvLift
    (wakeDoubletPhase cenvLift
      { sourcesState cenvLift zeroState with
          doublet := fun i : ℕ => if i = 0 then (5 : ℚ) else 3 })

/-! ## Lemmas and claim theorems -/

theorem Vec3.sub_zero_vec (v : Vec3) : v - (0 : Vec3) = v := by
  simp [Vec3.sub_def, Vec3.zero_def]

theorem Vec3.sub_sub_vec (v a b : Vec3) : v - a - b = v - (a + b) := by
  simp [Vec3.sub_def, Vec3.add_def, Vec3.ext_iff]
  refine ⟨by ring, by ring, by ring⟩

theorem Vec3.zero_smul_vec (v : Vec3) : (0 : ℚ) • v = (0 : Vec3) := by
  simp [Vec3.smul_def, Vec3.zero_def]

/-! ### C9: panel-not-found queries -/

theorem surface_velocity_potential_scan_miss (s : SolverState) (surfId panel : ℕ) :
    ∀ (l : List (BodyEnv × SurfaceRec)) (off : ℕ),
      surfId ∉ l.map (fun p => p.2.geom.id) →
      surface_velocity_potential_scan s surfId panel l off =
        (0, [Msg.potentialPanelNotFound panel surfId]) := by
  intro l
  induction l with
  | nil => intro off _; rfl
  | cons hd tl ih =>
    intro off h
    simp only [List.map_cons, List.mem_cons] at h
    push_neg at h
    simp only [surface_velocity_potential_scan, if_neg h.1]
    exact ih _ h.2

theorem surface_velocity_scan_miss (s : SolverState) (surfId panel : ℕ) :
    ∀ (l : List (BodyEnv × SurfaceRec)) (off : ℕ),
      surfId ∉ l.map (fun p => p.2.geom.id) →
      surface_velocity_scan s surfId panel l off =
        (Vec3.zero, [Msg.velocityPanelNotFound panel surfId]) := by
  intro l
  induction l with
  | nil => intro off _; rfl
  | cons hd tl ih =>
    intro off h
    simp only [List.map_cons, List.mem_cons] at h
    push_neg at h
    simp only [surface_velocity_scan, if_neg h.1]
    exact ih _ h.2

theorem pressure_coefficient_scan_miss (s : SolverState) (surfId panel : ℕ) :
    ∀ (l : List (BodyEnv × SurfaceRec)) (off : ℕ),
      surfId ∉ l.map (fun p => p.2.geom.id) →
      pressure_coefficient_scan s surfId panel l off =
        (0, [Msg.pressurePanelNotFound panel surfId]) := by
  intro l
  induction l with
  | nil => intro off _; rfl
  | cons hd tl ih =>
    intro off h
    simp only [List.map_cons, List.mem_cons] at h
    push_neg at h
    simp only [pressure_coefficient_scan, if_neg h.1]
    exact ih _ h.2

/-- C9.  A query of surface_velocity_potential, surface_velocity or
pressure_coefficient whose surface matches no registered surface reports
the lookup failure on standard error and returns the zero value of the
queried type. -/
theorem panel_not_found_queries_return_zero (env : SolverEnv) (s : SolverState)
    (surfId panel : ℕ)
    (h : surfId ∉ (nonWakeSurfaces env).map (fun p => p.2.geom.id)) :
    surface_velocity_potential_query env s surfId panel =
        (0, [Msg.potentialPanelNotFound panel surfId]) ∧
      surface_velocity_query env s surfId panel =
        (Vec3.zero, [Msg.velocityPanelNotFound panel surfId]) ∧
      pressure_coefficient_query env s surfId panel =
        (0, [Msg.pressurePanelNotFound panel surfId]) :=
  ⟨surface_velocity_potential_scan_miss s surfId panel _ 0 h,
   surface_velocity_scan_miss s surfId panel _ 0 h,
   pressure_coefficient_scan_miss s surfId panel _ 0 h⟩

/-- Witness for C9: querying surface id 9 (unregistered; only id 7 exists)
falls through to the error path on all three queries. -/
theorem panel_not_found_queries_return_zero_witness :
    surface_velocity_potential_query cenvZero zeroState 9 0 =
        (0, [Msg.potentialPanelNotFound 0 9]) ∧
      surface_velocity_query cenvZero zeroState 9 0 =
        (Vec3.zero, [Msg.velocityPanelNotFound 0 9]) ∧
      pressure_coefficient_query cenvZero zeroState 9 0 =
        (0, [Msg.pressurePanelNotFound 0 9]) :=
  panel_not_found_queries_return_zero cenvZero zeroState 9 0 (by decide)

/-! ### C3: the source coefficient formula -/

theorem subWakeLoop_eq_sub_sum (w : WakeRec) (wd : ℕ → ℚ) (surfId panel : ℕ) :
    ∀ (n : ℕ) (v : Vec3),
      subWakeLoop w wd surfId panel n v =
        v - ∑ k ∈ Finset.range n, (wd k) • w.vortex_ring_unit_velocity_on surfId panel k := by
  intro n
  induction n with
  | zero => intro v; simp [subWakeLoop, Vec3.sub_zero_vec]
  | succ m ih =>
    intro v
    simp only [subWakeLoop, ih, Finset.sum_range_succ]
    exact Vec3.sub_sub_vec _ _ _

theorem subWakes_foldl_eq_sub_sum (s : SolverState) (surfId panel : ℕ) :
    ∀ (L : List (ℕ × LiftingRec)) (v : Vec3),
      L.foldl
        (fun acc fl =>
          subWakeLoop fl.2.wake (s.wakeDoublet fl.1) surfId panel
            (fl.2.wake.n_panels - fl.2.topo.n_spanwise_panels) acc)
        v =
      v - (L.map fun fl =>
          ∑ k ∈ Finset.range (fl.2.wake.n_panels - fl.2.topo.n_spanwise_panels),
            (s.wakeDoublet fl.1 k) • fl.2.wake.vortex_ring_unit_velocity_on surfId panel k).sum := by
  intro L
  induction L with
  | nil => intro v; simp [Vec3.sub_zero_vec]
  | cons hd tl ih =>
    intro v
    simp only [List.foldl_cons, List.map_cons, List.sum_cons]
    rw [ih, subWakeLoop_eq_sub_sum]
    exact Vec3.sub_sub_vec _ _ _

/-- C3.  compute_source_coefficient returns u . n - v_blow, where u is the
apparent panel velocity reduced — exactly when wake convection is enabled
and old-wake influence is requested — by the doublet-weighted vortex-ring
unit velocity of every pre-existing wake panel (all wake panels except the
newest strip of each lifting surface). -/
theorem compute_source_coefficient_eq_claim (env : SolverEnv) (s : SolverState)
    (b : BodyEnv) (d : SurfaceRec) (sIdx panel : ℕ) (include_wake_influence : Bool) :
    compute_source_coefficient env s b d sIdx panel include_wake_influence =
      source_coefficient_claim env s b d sIdx panel include_wake_influence := by
  unfold compute_source_coefficient source_coefficient_claim subAllWakes
  by_cases h : env.params.convect_wake ∧ include_wake_influence = true
  · simp only [if_pos h]
    rw [subWakes_foldl_eq_sub_sum]
  · simp only [if_neg h]

/-! ### C2: the Marcov-mode shadowing defect

In the source, the Marcov branch of Solver::compute_surface_velocity
declares a new Vector3d that shadows the outer tangential_velocity; the
computed Marcov velocity is discarded and the outer, uninitialized variable
flows into the result.  The stored surface velocity is therefore
independent of the doublet distribution and differs from the velocity the
specification prescribes. -/

/-- C2.  In Marcov mode the computed surface velocity ignores the doublet
coefficients entirely (first conjunct: changing the whole doublet vector
does not change the result), and at a concrete quiescent panel with a
nonzero doublet gradient it differs from the specification's Marcov
velocity (second conjunct). -/
theorem marcov_mode_discards_computed_velocity :
    (∀ (c c' : ℚ) (u : Vec3),
        compute_surface_velocity cenvM (cstate c) cBody (cSurfRec 7) 0 0 u =
          compute_surface_velocity cenvM (cstate c') cBody (cSurfRec 7) 0 0 u) ∧
      compute_surface_velocity cenvM (cstate 2) cBody (cSurfRec 7) 0 0 Vec3.zero ≠
        marcov_surface_velocity_spec cenvM (cstate 2) cBody (cSurfRec 7) 0 0 := by
  constructor
  · intro c c' u
    rfl
  · have hL : (compute_surface_velocity cenvM (cstate 2) cBody (cSurfRec 7) 0 0 Vec3.zero).x = 0 := by
      simp [compute_surface_velocity, cenvM, cParams, cBody, cSurfRec, cSurfGeom, cstate,
        zeroState, Vec3.sub_def, Vec3.smul_def, Vec3.dot, Vec3.zero]
    have hR : (marcov_surface_velocity_spec cenvM (cstate 2) cBody (cSurfRec 7) 0 0).x = -1 := by
      simp [marcov_surface_velocity_spec, compute_disturbance_velocity, nonWakeSurfaces,
        liftingEnum, distVelSurfLoop, cenvM, cParams, cBody, cSurfRec, cSurfGeom, cstate,
        zeroState, Vec3.sub_def, Vec3.smul_def, Vec3.add_def, Vec3.dot, Vec3.zero]
    intro hEq
    rw [hEq, hR] at hL
    norm_num at hL

/-! ### C7: wake convection order -/

theorem teDisplaceLoop_length (env : ConvEnv) (w : WakeConv) (dt : ℚ) (base : ℕ) :
    ∀ (m : ℕ) (ns : List Vec3), (teDisplaceLoop env w dt base m ns).length = ns.length := by
  intro m
  induction m with
  | zero => intro ns; rfl
  | succ k ih => intro ns; simp [teDisplaceLoop, ih]

theorem teDisplaceLoop_getElem (env : ConvEnv) (w : WakeConv) (dt : ℚ) (base : ℕ)
    (m : ℕ) (ns : List Vec3) (j : ℕ) (hj : j < ns.length)
    (hj2 : j < (teDisplaceLoop env w dt base m ns).length) :
    (teDisplaceLoop env w dt base m ns)[j] =
      if base ≤ j ∧ j < base + m then
        ns[j] + compute_trailing_edge_vortex_displacement env w (j - base) dt
      else ns[j] := by
  induction m with
  | zero =>
    rw [if_neg (by omega)]
    rfl
  | succ k ih =>
    by_cases hjk : j = base + k
    · subst hjk
      have hlen : (teDisplaceLoop env w dt base k ns).length = ns.length :=
        teDisplaceLoop_length env w dt base k ns
      simp only [teDisplaceLoop]
      rw [List.getElem_set_self (by rw [List.length_set, hlen]; omega)]
      rw [List.getD_eq_getElem _ _ (by rw [hlen]; omega)]
      rw [ih]
      rw [if_neg (by omega), if_pos (by omega)]
      have hk : base + k - base = k := by omega
      rw [hk]
    · simp only [teDisplaceLoop]
      rw [List.getElem_set_ne (by omega)]
      rw [ih]
      by_cases hc : base ≤ j ∧ j < base + k
      · rw [if_pos hc, if_pos (by omega)]
      · rw [if_neg hc, if_neg (by omega)]

theorem convectLoop_length (dt : ℚ) (vels : List Vec3) :
    ∀ (m : ℕ) (ns : List Vec3), (convectLoop dt vels m ns).length = ns.length := by
  intro m
  induction m with
  | zero => intro ns; rfl
  | succ k ih => intro ns; simp [convectLoop, ih]

theorem convectLoop_getElem (dt : ℚ) (vels : List Vec3) (m : ℕ) (ns : List Vec3)
    (j : ℕ) (hj : j < ns.length)
    (hj2 : j < (convectLoop dt vels m ns).length) :
    (convectLoop dt vels m ns)[j] =
      if j < m then ns[j] + dt • vels.getD j Vec3.zero else ns[j] := by
  induction m with
  | zero =>
    rw [if_neg (by omega)]
    rfl
  | succ k ih =>
    by_cases hjk : j = k
    · subst hjk
      have hlen : (convectLoop dt vels j ns).length = ns.length :=
        convectLoop_length dt vels j ns
      simp only [convectLoop]
      rw [List.getElem_set_self (by rw [List.length_set, hlen]; omega)]
      rw [List.getD_eq_getElem _ _ (by rw [hlen]; omega)]
      rw [ih]
      rw [if_neg (by omega), if_pos (by omega)]
    · simp only [convectLoop]
      rw [List.getElem_set_ne (by omega)]
      rw [ih]
      by_cases hc : j < k
      · rw [if_pos hc, if_pos (by omega)]
      · rw [if_neg hc, if_neg (by omega)]

theorem convectWake_nodes_spec (env : ConvEnv) (dt : ℚ) (w : WakeConv)
    (allNodes : List (List Vec3)) :
    convectLoop dt (w.nodes.map (env.velocityAt allNodes))
        (w.nodes.length - w.n_spanwise_nodes)
        (teDisplaceLoop env w dt (w.nodes.length - w.n_spanwise_nodes)
          w.n_spanwise_nodes w.nodes) =
      convectedNodesSpec env dt allNodes w := by
  apply List.ext_getElem
  · rw [convectLoop_length, teDisplaceLoop_length]
    simp [convectedNodesSpec]
  · intro j hj1 hj2
    have hn : j < w.nodes.length := by
      have := hj1
      rw [convectLoop_length, teDisplaceLoop_length] at this
      exact this
    have hlen1 : (teDisplaceLoop env w dt (w.nodes.length - w.n_spanwise_nodes)
        w.n_spanwise_nodes w.nodes).length = w.nodes.length :=
      teDisplaceLoop_length env w dt _ _ _
    rw [convectLoop_getElem _ _ _ _ j (by rw [hlen1]; exact hn)]
    simp only [convectedNodesSpec, List.getElem_map, List.getElem_range]
    rw [teDisplaceLoop_getElem env w dt _ _ _ j hn]
    by_cases hc : j < w.nodes.length - w.n_spanwise_nodes
    · rw [if_pos hc, if_neg (by omega), if_pos hc]
      rw [List.getD_eq_getElem _ _ (by rw [List.length_map]; exact hn)]
      rw [List.getElem_map]
      rw [List.getD_eq_getElem _ _ hn]
    · rw [if_neg hc, if_pos (by omega), if_neg hc]
      rw [List.getD_eq_getElem _ _ hn]

theorem convectWake_spec (env : ConvEnv) (dt : ℚ) (w : WakeConv)
    (allNodes : List (List Vec3)) :
    convectWake env dt w (w.nodes.map (env.velocityAt allNodes)) =
      w.add_layer (w.update_properties dt (convectedNodesSpec env dt allNodes w)) := by
  simp only [convectWake]
  rw [convectWake_nodes_spec]

/-- C7.  In convecting-wake mode, update_wakes equals the specification
transform: each trailing-edge-coincident node moves by the trailing-edge
displacement function, every other node by the velocity sampled at it with
all wakes in their pre-update state times dt (never by a velocity sampled
after the trailing-edge displacement), and only then does each wake update
its internal properties and append a fresh layer. -/
theorem update_wakes_eq_spec (env : ConvEnv) (dt : ℚ) (wakes : List WakeConv) :
    update_wakes env dt wakes = updateWakesSpec env dt wakes := by
  simp only [update_wakes, updateWakesSpec]
  have hz := List.zip_map' id (fun w : WakeConv =>
    w.nodes.map (env.velocityAt (wakes.map (fun v => v.nodes)))) wakes
  rw [List.map_id] at hz
  rw [hz, List.map_map]
  apply List.map_congr_left
  intro w _
  exact convectWake_spec env dt w (wakes.map (fun v => v.nodes))

/-! ### Phase preservation and outer-loop inversion lemmas -/

theorem sourcesState_doublet (env : SolverEnv) (s : SolverState) :
    (sourcesState env s).doublet = s.doublet := rfl

theorem sourcesState_frame (env : SolverEnv) (s : SolverState) :
    (sourcesState env s).doublet = s.doublet ∧
      (sourcesState env s).wakeDoublet = s.wakeDoublet ∧
      (sourcesState env s).surfVel = s.surfVel ∧
      (sourcesState env s).phi = s.phi ∧
      (sourcesState env s).phiPrev = s.phiPrev ∧
      (sourcesState env s).pressure = s.pressure ∧
      (sourcesState env s).blowing = s.blowing ∧
      (sourcesState env s).cerr = s.cerr :=
  ⟨rfl, rfl, rfl, rfl, rfl, rfl, rfl, rfl⟩

theorem convergedAt_zero (env : SolverEnv) (q : ℚ) : convergedAt env 0 q = false := by
  simp [convergedAt]

theorem iterStep_fail_inv (env : SolverEnv) (iter : ℕ) (s s' : SolverState)
    (h : iterStep env iter s = StepRes.failStep s') :
    ∃ it er, linCall env (sourcesState env s) = LinResult.failure it er ∧
      s' = { sourcesState env s with
              cerr := Msg.linSolveFailed it er :: (sourcesState env s).cerr } := by
  simp only [iterStep] at h
  cases hl : linCall env (sourcesState env s) with
  | success mu it er =>
    rw [hl] at h
    exfalso
    simp only [stepSuccess] at h
    split at h
    · exact StepRes.noConfusion h
    · split at h
      · exact StepRes.noConfusion h
      · split at h
        · exact StepRes.noConfusion h
        · exact StepRes.noConfusion h
  | failure it er =>
    rw [hl] at h
    exact ⟨it, er, rfl, (StepRes.failStep.injEq _ _).mp h.symm⟩

theorem stepSuccess_state (env : SolverEnv) (iter : ℕ) (s1 : SolverState) (mu : ℕ → ℚ)
    (s' : SolverState)
    (h : stepSuccess env iter s1 mu = StepRes.doneStep s' ∨
      stepSuccess env iter s1 mu = StepRes.contStep s') :
    s'.doublet = mu ∧
      s'.wakeDoublet = wakeDoubletWrites mu (liftTriples env) s1.wakeDoublet ∧
      s'.phi = s1.phi ∧ s'.phiPrev = s1.phiPrev ∧ s'.pressure = s1.pressure ∧
      s'.source = s1.source ∧ s'.cerr = s1.cerr := by
  simp only [stepSuccess] at h
  rcases h with h | h <;>
  · split at h
    · first
      | (cases h; exact ⟨rfl, rfl, rfl, rfl, rfl, rfl, rfl⟩)
      | exact StepRes.noConfusion h
    · split at h
      · first
        | (cases h; exact ⟨rfl, rfl, rfl, rfl, rfl, rfl, rfl⟩)
        | exact StepRes.noConfusion h
      · split at h <;>
          first
          | (cases h; exact ⟨rfl, rfl, rfl, rfl, rfl, rfl, rfl⟩)
          | exact StepRes.noConfusion h

theorem stepSuccess_cont_le (env : SolverEnv) (iter : ℕ) (s1 : SolverState) (mu : ℕ → ℚ)
    (s' : SolverState) (h : stepSuccess env iter s1 mu = StepRes.contStep s') :
    iter ≤ env.params.max_boundary_layer_iterations := by
  simp only [stepSuccess] at h
  split at h
  · exact StepRes.noConfusion h
  · split at h
    · exact StepRes.noConfusion h
    · omega

theorem iterStep_cont_le (env : SolverEnv) (iter : ℕ) (s s' : SolverState)
    (h : iterStep env iter s = StepRes.contStep s') :
    iter ≤ env.params.max_boundary_layer_iterations := by
  simp only [iterStep] at h
  cases hl : linCall env (sourcesState env s) with
  | success mu it er =>
    rw [hl] at h
    exact stepSuccess_cont_le env iter _ mu s' h
  | failure it er =>
    rw [hl] at h
    exact StepRes.noConfusion h

theorem iterStep_success_inv (env : SolverEnv) (iter : ℕ) (s s' : SolverState)
    (h : iterStep env iter s = StepRes.doneStep s' ∨
      iterStep env iter s = StepRes.contStep s') :
    ∃ mu it er, linCall env (sourcesState env s) = LinResult.success mu it er ∧
      (stepSuccess env iter (sourcesState env s) mu = StepRes.doneStep s' ∨
        stepSuccess env iter (sourcesState env s) mu = StepRes.contStep s') := by
  simp only [iterStep] at h
  cases hl : linCall env (sourcesState env s) with
  | success mu it er =>
    rw [hl] at h
    exact ⟨mu, it, er, rfl, h⟩
  | failure it er =>
    rw [hl] at h
    rcases h with h | h <;> exact StepRes.noConfusion h

theorem solveLoop_not_exhausted (env : SolverEnv) :
    ∀ (fuel iter : ℕ) (s : SolverState), 1 ≤ fuel →
      loopFuel env ≤ fuel + iter →
      isExhausted (solveLoop env fuel iter s) = false := by
  intro fuel
  induction fuel with
  | zero => intro iter s h1 _; omega
  | succ f ih =>
    intro iter s _ hb
    simp only [solveLoop]
    cases hstep : iterStep env iter s with
    | failStep s' => rfl
    | doneStep s' => rfl
    | contStep s' =>
      have hle := iterStep_cont_le env iter s s' hstep
      have hf : 1 ≤ f := by
        unfold loopFuel at hb
        omega
      exact ih (iter + 1) s' hf (by unfold loopFuel at hb ⊢; omega)

theorem solveLoop_fail_frame (env : SolverEnv) :
    ∀ (fuel iter : ℕ) (s s' : SolverState), solveLoop env fuel iter s = LoopRes.fail s' →
      ∃ t, LoopReach env s t ∧
        s'.doublet = t.doublet ∧ s'.wakeDoublet = t.wakeDoublet ∧
        s'.surfVel = t.surfVel ∧ s'.phi = t.phi ∧ s'.phiPrev = t.phiPrev ∧
        s'.pressure = t.pressure ∧ s'.source = (sourcesState env t).source ∧
        ∃ it er, s'.cerr = Msg.linSolveFailed it er :: t.cerr := by
  intro fuel
  induction fuel with
  | zero => intro iter s s' h; exact LoopRes.noConfusion h
  | succ f ih =>
    intro iter s s' h
    simp only [solveLoop] at h
    cases hstep : iterStep env iter s with
    | failStep s'' =>
      rw [hstep] at h
      injection h with hh
      subst hh
      obtain ⟨it, er, _, heq⟩ := iterStep_fail_inv env iter s s'' hstep
      refine ⟨s, Relation.ReflTransGen.refl, ?_⟩
      subst heq
      exact ⟨rfl, rfl, rfl, rfl, rfl, rfl, rfl, it, er, rfl⟩
    | doneStep s'' => rw [hstep] at h; exact LoopRes.noConfusion h
    | contStep s'' =>
      rw [hstep] at h
      obtain ⟨t, hreach, hrest⟩ := ih (iter + 1) s'' s' h
      exact ⟨t, Relation.ReflTransGen.head ⟨iter, hstep⟩ hreach, hrest⟩

theorem solveLoop_ok_of_never_fail (env : SolverEnv)
    (hsucc : ∀ A bv g it er, env.linSolve A bv g ≠ LinResult.failure it er) :
    ∀ (fuel iter : ℕ) (s : SolverState), 1 ≤ fuel → loopFuel env ≤ fuel + iter →
      ∃ s', solveLoop env fuel iter s = LoopRes.ok s' := by
  intro fuel
  induction fuel with
  | zero => intro iter s h1 _; omega
  | succ f ih =>
    intro iter s _ hb
    simp only [solveLoop]
    cases hstep : iterStep env iter s with
    | failStep s' =>
      obtain ⟨it, er, hl, _⟩ := iterStep_fail_inv env iter s s' hstep
      exact absurd hl (hsucc _ _ _ it er)
    | doneStep s' => exact ⟨s', rfl⟩
    | contStep s' =>
      have hle := iterStep_cont_le env iter s s' hstep
      have hf : 1 ≤ f := by
        unfold loopFuel at hb
        omega
      exact ih (iter + 1) s' hf (by unfold loopFuel at hb ⊢; omega)

theorem solveLoop_ok_preserves (env : SolverEnv) :
    ∀ (fuel iter : ℕ) (s s' : SolverState), solveLoop env fuel iter s = LoopRes.ok s' →
      s'.phiPrev = s.phiPrev ∧ s'.phi = s.phi ∧ s'.pressure = s.pressure := by
  intro fuel
  induction fuel with
  | zero => intro iter s s' h; exact LoopRes.noConfusion h
  | succ f ih =>
    intro iter s s' h
    simp only [solveLoop] at h
    cases hstep : iterStep env iter s with
    | failStep s'' => rw [hstep] at h; exact LoopRes.noConfusion h
    | doneStep s'' =>
      rw [hstep] at h
      cases h
      obtain ⟨mu, it, er, _, hstate⟩ := iterStep_success_inv env iter s s' (Or.inl hstep)
      obtain ⟨_, _, hphi, hprev, hpr, _, _⟩ := stepSuccess_state env iter _ mu s' hstate
      exact ⟨hprev, hphi, hpr⟩
    | contStep s'' =>
      rw [hstep] at h
      obtain ⟨hprev, hphi, hpr⟩ := ih (iter + 1) s'' s' h
      obtain ⟨mu, it, er, _, hstate⟩ := iterStep_success_inv env iter s s'' (Or.inr hstep)
      obtain ⟨_, _, hphi2, hprev2, hpr2, _, _⟩ := stepSuccess_state env iter _ mu s'' hstate
      exact ⟨hprev.trans hprev2, hphi.trans hphi2, hpr.trans hpr2⟩

/-! ### C5, C8, C10: failure behaviour, loop termination, failure frame -/

/-- C5.  Whenever the iterative linear solve does not succeed, the failing
iteration reports the iteration count and estimated error on the standard
error stream and leaves the state exactly as the source pass left it (no
rollback); the failure propagates out of the outer loop, and solve returns
false with that state. -/
theorem solve_linear_failure (env : SolverEnv) (dt : ℚ) (prop : Bool) :
    (∀ iter s it er, linCall env (sourcesState env s) = LinResult.failure it er →
        iterStep env iter s = StepRes.failStep
          { sourcesState env s with
              cerr := Msg.linSolveFailed it er :: (sourcesState env s).cerr }) ∧
      (∀ fuel iter s s', solveLoop env fuel iter s = LoopRes.fail s' →
          ∃ it er, Msg.linSolveFailed it er ∈ s'.cerr) ∧
      (∀ s₀ s', solveLoop env (loopFuel env) 0 s₀ = LoopRes.fail s' →
          solve env dt prop s₀ = (false, s')) := by
  refine ⟨?_, ?_, ?_⟩
  · intro iter s it er hfail
    simp only [iterStep, hfail]
  · intro fuel iter s s' h
    obtain ⟨t, _, _, _, _, _, _, _, _, it, er, hc⟩ :=
      solveLoop_fail_frame env fuel iter s s' h
    refine ⟨it, er, ?_⟩
    rw [hc]
    exact List.mem_cons_self _ _
  · intro s₀ s' h
    simp only [solve, h]

/-- Witness for C5: with an always-failing linear solver, one solve call
returns false carrying the error message with the solver's iteration count
and estimated error, atop the source-updated state. -/
theorem solve_linear_failure_witness :
    solve cenvFail 1 false zeroState =
      (false, { sourcesState cenvFail zeroState with
                  cerr := [Msg.linSolveFailed 250 (3 / 2)] }) := by
  apply (solve_linear_failure cenvFail 1 false).2.2
  rfl

/-- C8.  If every linear solve succeeds, the boundary-layer outer loop
terminates within its fuel (first conjunct), solve returns true rather than
an error (second conjunct), convergence is never declared on the first
iteration (third conjunct), and the loop never continues past the iteration
cap (fourth conjunct). -/
theorem boundary_layer_loop_termination (env : SolverEnv) (dt : ℚ) (prop : Bool)
    (s : SolverState)
    (hsucc : ∀ A bv g it er, env.linSolve A bv g ≠ LinResult.failure it er) :
    isExhausted (solveLoop env (loopFuel env) 0 s) = false ∧
      (solve env dt prop s).1 = true ∧
      (∀ q, convergedAt env 0 q = false) ∧
      (∀ iter t t', iterStep env iter t = StepRes.contStep t' →
          iter ≤ env.params.max_boundary_layer_iterations) := by
  obtain ⟨s', hok⟩ := solveLoop_ok_of_never_fail env hsucc (loopFuel env) 0 s
    (by unfold loopFuel; omega) (by omega)
  refine ⟨?_, ?_, convergedAt_zero env, fun iter t t' h => iterStep_cont_le env iter t t' h⟩
  · rw [hok]; rfl
  · simp only [solve, hok]

/-- Witness for C8: in the environment whose solver always succeeds,
solve terminates and returns true. -/
theorem boundary_layer_loop_termination_witness :
    isExhausted (solveLoop cenvOk (loopFuel cenvOk) 0 zeroState) = false ∧
      (solve cenvOk 1 false zeroState).1 = true ∧
      (∀ q, convergedAt cenvOk 0 q = false) ∧
      (∀ iter t t', iterStep cenvOk iter t = StepRes.contStep t' →
          iter ≤ cenvOk.params.max_boundary_layer_iterations) :=
  boundary_layer_loop_termination cenvOk 1 false zeroState
    (fun _ _ _ _ _ h => LinResult.noConfusion h)

/-- C10.  If solve returns false, the returned state agrees with the state
at the entry of the failing iteration on every component except
source_coefficients, which holds the source distribution (with wake
influence) of that iteration. -/
theorem solve_failure_preserves_state (env : SolverEnv) (dt : ℚ) (prop : Bool)
    (s₀ s' : SolverState) (h : solve env dt prop s₀ = (false, s')) :
    ∃ t, LoopReach env s₀ t ∧
      s'.doublet = t.doublet ∧ s'.wakeDoublet = t.wakeDoublet ∧
      s'.surfVel = t.surfVel ∧ s'.phi = t.phi ∧ s'.phiPrev = t.phiPrev ∧
      s'.pressure = t.pressure ∧ s'.source = (sourcesState env t).source := by
  unfold solve at h
  cases hloop : solveLoop env (loopFuel env) 0 s₀ with
  | fail t' =>
    rw [hloop] at h
    simp only [Prod.mk.injEq] at h
    obtain ⟨t, hr, h1, h2, h3, h4, h5, h6, h7, _⟩ :=
      solveLoop_fail_frame env (loopFuel env) 0 s₀ t' hloop
    rw [← h.2]
    exact ⟨t, hr, h1, h2, h3, h4, h5, h6, h7⟩
  | exhausted t' =>
    have hne := solveLoop_not_exhausted env (loopFuel env) 0 s₀
      (by unfold loopFuel; omega) (by omega)
    rw [hloop] at hne
    exact absurd hne (by simp [isExhausted])
  | ok t' =>
    rw [hloop] at h
    simp only [Prod.mk.injEq] at h
    exact absurd h.1 (by simp)

/-- Witness for C10: with the always-failing solver, the returned state is
reachable-from-start and differs from the failing iteration's entry state
only in the source vector. -/
theorem solve_failure_preserves_state_witness :
    ∃ t, LoopReach cenvFail zeroState t ∧
      ({ sourcesState cenvFail zeroState with
          cerr := [Msg.linSolveFailed 250 (3 / 2)] } : SolverState).doublet = t.doublet ∧
      ({ sourcesState cenvFail zeroState with
          cerr := [Msg.linSolveFailed 250 (3 / 2)] } : SolverState).wakeDoublet = t.wakeDoublet ∧
      ({ sourcesState cenvFail zeroState with
          cerr := [Msg.linSolveFailed 250 (3 / 2)] } : SolverState).surfVel = t.surfVel ∧
      ({ sourcesState cenvFail zeroState with
          cerr := [Msg.linSolveFailed 250 (3 / 2)] } : SolverState).phi = t.phi ∧
      ({ sourcesState cenvFail zeroState with
          cerr := [Msg.linSolveFailed 250 (3 / 2)] } : SolverState).phiPrev = t.phiPrev ∧
      ({ sourcesState cenvFail zeroState with
          cerr := [Msg.linSolveFailed 250 (3 / 2)] } : SolverState).pressure = t.pressure ∧
      ({ sourcesState cenvFail zeroState with
          cerr := [Msg.linSolveFailed 250 (3 / 2)] } : SolverState).source =
        (sourcesState cenvFail t).source :=
  solve_failure_preserves_state cenvFail 1 false zeroState
    { sourcesState cenvFail zeroState with
        cerr := [Msg.linSolveFailed 250 (3 / 2)] } (by rfl)

/-! ### C1: the Kutta closure -/

theorem updateAt2_same {α : Type} (f : ℕ → ℕ → α) (i j : ℕ) (v : α) :
    updateAt2 f i j v i j = v := by simp [updateAt2]

theorem updateAt2_other {α : Type} (f : ℕ → ℕ → α) (i j a b : ℕ) (v : α)
    (h : a ≠ i ∨ b ≠ j) : updateAt2 f i j v a b = f a b := by
  rcases h with h | h <;> simp [updateAt2, h]

theorem wakeWriteLSLoop_at (mu : ℕ → ℚ) (f off : ℕ) (l : LiftingRec) (wd : ℕ → ℕ → ℚ)
    (m k : ℕ) (hk : k < m) :
    wakeWriteLSLoop mu f off l wd m f
        (l.wake.n_panels - l.topo.n_spanwise_panels + k) =
      mu (off + l.topo.trailing_edge_upper_panel k) -
        mu (off + l.topo.trailing_edge_lower_panel k) := by
  induction m with
  | zero => omega
  | succ m' ih =>
    by_cases hkm : k = m'
    · subst hkm
      simp only [wakeWriteLSLoop]
      exact updateAt2_same _ _ _ _
    · simp only [wakeWriteLSLoop]
      rw [updateAt2_other _ _ _ _ _ _ (Or.inr (by omega))]
      exact ih (by omega)

theorem wakeWriteLSLoop_other_row (mu : ℕ → ℚ) (f off : ℕ) (l : LiftingRec)
    (wd : ℕ → ℕ → ℚ) (m a b : ℕ) (ha : a ≠ f) :
    wakeWriteLSLoop mu f off l wd m a b = wd a b := by
  induction m with
  | zero => rfl
  | succ m' ih =>
    simp only [wakeWriteLSLoop]
    rw [updateAt2_other _ _ _ _ _ _ (Or.inl ha)]
    exact ih

theorem wakeDoubletWrites_other_row (mu : ℕ → ℚ) :
    ∀ (ts : List (ℕ × ℕ × LiftingRec)) (wd : ℕ → ℕ → ℚ) (f b : ℕ),
      (∀ t ∈ ts, t.1 ≠ f) → wakeDoubletWrites mu ts wd f b = wd f b := by
  intro ts
  induction ts with
  | nil => intro wd f b _; rfl
  | cons t rest ih =>
    intro wd f b h
    simp only [wakeDoubletWrites]
    rw [ih _ f b (fun t' ht' => h t' (List.mem_cons_of_mem t ht'))]
    exact wakeWriteLSLoop_other_row mu t.1 t.2.1 t.2.2 wd _ f b
      (fun hh => h t (List.mem_cons_self t rest) hh.symm)

theorem wakeDoubletWrites_at (mu : ℕ → ℚ) :
    ∀ (ts : List (ℕ × ℕ × LiftingRec)) (wd : ℕ → ℕ → ℚ) (f off : ℕ) (l : LiftingRec)
      (k : ℕ), (f, off, l) ∈ ts → (ts.map (fun t => t.1)).Nodup →
      k < l.topo.n_spanwise_panels →
      wakeDoubletWrites mu ts wd f (l.wake.n_panels - l.topo.n_spanwise_panels + k) =
        mu (off + l.topo.trailing_edge_upper_panel k) -
          mu (off + l.topo.trailing_edge_lower_panel k) := by
  intro ts
  induction ts with
  | nil => intro wd f off l k hmem _ _; exact absurd hmem (List.not_mem_nil _)
  | cons t rest ih =>
    intro wd f off l k hmem hnd hk
    simp only [List.map_cons, List.nodup_cons] at hnd
    rcases List.mem_cons.mp hmem with heq | hmem'
    · subst heq
      simp only [wakeDoubletWrites]
      rw [wakeDoubletWrites_other_row mu rest _ f _
        (fun t' ht' hft' => hnd.1 (hft' ▸ List.mem_map_of_mem (fun t => t.1) ht'))]
      exact wakeWriteLSLoop_at mu f off l wd _ k hk
    · have hne : t.1 ≠ f := by
        intro hft
        exact hnd.1 (hft ▸ List.mem_map_of_mem (fun t => t.1) hmem')
      simp only [wakeDoubletWrites]
      exact ih _ f off l k hmem' hnd.2 hk

theorem liftTriplesBody_flats :
    ∀ (lss : List LiftingRec) (f off : ℕ),
      (liftTriplesBody f off lss).map (fun t => t.1) = List.range' f lss.length := by
  intro lss
  induction lss with
  | nil => intro f off; rfl
  | cons l rest ih =>
    intro f off
    simp only [liftTriplesBody, List.map_cons, List.length_cons, List.range'_succ]
    rw [ih]

theorem liftTriplesAux_flats :
    ∀ (bodies : List BodyEnv) (f off : ℕ),
      (liftTriplesAux f off bodies).map (fun t => t.1) = List.range' f (countLss bodies) := by
  intro bodies
  induction bodies with
  | nil => intro f off; rfl
  | cons b rest ih =>
    intro f off
    simp only [liftTriplesAux, List.map_append, liftTriplesBody_flats, ih, countLss,
      List.map_cons, List.sum_cons]
    rw [show b.lss.length + (List.map (fun b => b.lss.length) rest).sum =
        (List.map (fun b => b.lss.length) rest).sum + b.lss.length from Nat.add_comm _ _]
    exact List.range'_append_1 f b.lss.length _

theorem liftTriplesBody_mem :
    ∀ (lss : List LiftingRec) (f off li : ℕ), li < lss.length →
      (f + li, off + ((lss.take li).map (fun l => l.surf.geom.n_panels)).sum,
        lss.getD li default) ∈ liftTriplesBody f off lss := by
  intro lss
  induction lss with
  | nil => intro f off li h; simp at h
  | cons l rest ih =>
    intro f off li hli
    cases li with
    | zero =>
      simp only [List.take_zero, List.map_nil, List.sum_nil, Nat.add_zero, List.getD_cons_zero]
      exact List.mem_cons_self _ _
    | succ li' =>
      have h2 := ih (f + 1) (off + l.surf.geom.n_panels) li' (by simpa using hli)
      have e1 : f + 1 + li' = f + (li' + 1) := by omega
      have e2 : off + l.surf.geom.n_panels +
          ((rest.take li').map (fun l => l.surf.geom.n_panels)).sum =
          off + (((l :: rest).take (li' + 1)).map (fun l => l.surf.geom.n_panels)).sum := by
        simp only [List.take_succ_cons, List.map_cons, List.sum_cons]
        omega
      rw [e1, e2] at h2
      simp only [List.getD_cons_succ]
      exact List.mem_cons_of_mem _ h2

theorem liftTriplesAux_mem :
    ∀ (bodies : List BodyEnv) (f off bi li : ℕ), bi < bodies.length →
      li < (bodies.getD bi default).lss.length →
      (f + ((bodies.take bi).map (fun b => b.lss.length)).sum + li,
        off + ((bodies.take bi).map bodyPanels).sum + panelsNL (bodies.getD bi default) +
          (((bodies.getD bi default).lss.take li).map (fun l => l.surf.geom.n_panels)).sum,
        (bodies.getD bi default).lss.getD li default) ∈ liftTriplesAux f off bodies := by
  intro bodies
  induction bodies with
  | nil => intro f off bi li h _; simp at h
  | cons b rest ih =>
    intro f off bi li hbi hli
    cases bi with
    | zero =>
      simp only [List.take_zero, List.map_nil, List.sum_nil, Nat.add_zero,
        List.getD_cons_zero] at hli ⊢
      have h2 := liftTriplesBody_mem b.lss f (off + panelsNL b) li hli
      simp only [liftTriplesAux]
      exact List.mem_append_left _ h2
    | succ bi' =>
      simp only [List.getD_cons_succ] at hli ⊢
      have h2 := ih (f + b.lss.length) (off + bodyPanels b) bi' li
        (by simpa using hbi) hli
      have e1 : f + b.lss.length + ((rest.take bi').map (fun b => b.lss.length)).sum =
          f + (((b :: rest).take (bi' + 1)).map (fun b => b.lss.length)).sum := by
        simp only [List.take_succ_cons, List.map_cons, List.sum_cons]
        omega
      have e2 : off + bodyPanels b + ((rest.take bi').map bodyPanels).sum =
          off + (((b :: rest).take (bi' + 1)).map bodyPanels).sum := by
        simp only [List.take_succ_cons, List.map_cons, List.sum_cons]
        omega
      rw [e1, e2] at h2
      simp only [liftTriplesAux]
      exact List.mem_append_right _ h2

theorem liftTriples_flats_nodup (env : SolverEnv) :
    ((liftTriples env).map (fun t => t.1)).Nodup := by
  unfold liftTriples
  rw [liftTriplesAux_flats]
  exact List.nodup_range' _ _

theorem liftTriples_mem (env : SolverEnv) (bi li : ℕ) (hbi : bi < env.bodies.length)
    (hli : li < (env.bodies.getD bi default).lss.length) :
    (liftFlatIdx env bi li, liftGlobalOffset env bi li,
      (env.bodies.getD bi default).lss.getD li default) ∈ liftTriples env := by
  have h := liftTriplesAux_mem env.bodies 0 0 bi li hbi hli
  unfold liftTriples liftFlatIdx liftGlobalOffset
  have e1 : 0 + ((env.bodies.take bi).map (fun b => b.lss.length)).sum + li =
      ((env.bodies.take bi).map (fun b => b.lss.length)).sum + li := by omega
  have e2 : 0 + ((env.bodies.take bi).map bodyPanels).sum +
        panelsNL (env.bodies.getD bi default) +
        (((env.bodies.getD bi default).lss.take li).map
          (fun l => l.surf.geom.n_panels)).sum =
      ((env.bodies.take bi).map bodyPanels).sum + panelsNL (env.bodies.getD bi default) +
        (((env.bodies.getD bi default).lss.take li).map
          (fun l => l.surf.geom.n_panels)).sum := by omega
  rw [e1, e2] at h
  exact h

/-- C1.  After every successful linear solve inside solve (each doneStep or
contStep outcome of an outer-loop iteration), the doublet coefficient of
the newest wake-strip panel of every lifting surface at every spanwise
station equals the doublet coefficient of the trailing-edge upper panel
minus that of the lower panel, read from the just-computed doublet vector
at the lifting surface's global offset. -/
theorem kutta_closure (env : SolverEnv) (iter : ℕ) (s s' : SolverState) (bi li k : ℕ)
    (h : iterStep env iter s = StepRes.doneStep s' ∨
      iterStep env iter s = StepRes.contStep s')
    (hbi : bi < env.bodies.length)
    (hli : li < (env.bodies.getD bi default).lss.length)
    (hk : k < ((env.bodies.getD bi default).lss.getD li default).topo.n_spanwise_panels) :
    s'.wakeDoublet (liftFlatIdx env bi li)
        (((env.bodies.getD bi default).lss.getD li default).wake.n_panels -
          ((env.bodies.getD bi default).lss.getD li default).topo.n_spanwise_panels + k) =
      s'.doublet (liftGlobalOffset env bi li +
          ((env.bodies.getD bi default).lss.getD li
            default).topo.trailing_edge_upper_panel k) -
        s'.doublet (liftGlobalOffset env bi li +
          ((env.bodies.getD bi default).lss.getD li
            default).topo.trailing_edge_lower_panel k) := by
  obtain ⟨mu, it, er, _, hstate⟩ := iterStep_success_inv env iter s s' h
  obtain ⟨hdub, hwd, _, _, _, _, _⟩ := stepSuccess_state env iter _ mu s' hstate
  rw [hdub, hwd]
  exact wakeDoubletWrites_at mu (liftTriples env) _ _ _ _ k
    (liftTriples_mem env bi li hbi hli) (liftTriples_flats_nodup env) hk

/-- Witness for C1: in the one-lifting-surface environment, after the
iteration that accepted the doublet vector (5, 3, 3, ...) the newest wake
panel coefficient equals mu(upper) - mu(lower). -/
theorem kutta_closure_witness :
    cStepState.wakeDoublet (liftFlatIdx cenvLift 0 0)
        (cWake.n_panels - cLiftTopo.n_spanwise_panels + 0) =
      cStepState.doublet (liftGlobalOffset cenvLift 0 0 +
          cLiftTopo.trailing_edge_upper_panel 0) -
        cStepState.doublet (liftGlobalOffset cenvLift 0 0 +
          cLiftTopo.trailing_edge_lower_panel 0) :=
  kutta_closure cenvLift 0 zeroState cStepState 0 0 0 (Or.inl (by rfl))
    (by decide) (by decide) (by decide)

/-! ### Panel location and write-pass characterizations -/

theorem locatePanel_i_le :
    ∀ (l : List (BodyEnv × SurfaceRec)) (p : ℕ) (b : BodyEnv) (d : SurfaceRec) (i : ℕ),
      locatePanel l p = some (b, d, i) → i ≤ p := by
  intro l
  induction l with
  | nil => intro p b d i h; exact Option.noConfusion h
  | cons hd tl ih =>
    intro p b d i h
    simp only [locatePanel] at h
    split at h
    · cases h; omega
    · exact le_trans (ih _ b d i h) (Nat.sub_le p _)

theorem locatePanel_mem :
    ∀ (l : List (BodyEnv × SurfaceRec)) (p : ℕ) (b : BodyEnv) (d : SurfaceRec) (i : ℕ),
      locatePanel l p = some (b, d, i) → (b, d) ∈ l := by
  intro l
  induction l with
  | nil => intro p b d i h; exact Option.noConfusion h
  | cons hd tl ih =>
    intro p b d i h
    simp only [locatePanel] at h
    split at h
    · cases h; exact List.mem_cons_self _ _
    · exact List.mem_cons_of_mem _ (ih _ b d i h)

theorem locatePanel_isSome_of_lt :
    ∀ (l : List (BodyEnv × SurfaceRec)) (p : ℕ), p < panelsOf l →
      ∃ b d i, locatePanel l p = some (b, d, i) := by
  intro l
  induction l with
  | nil => intro p h; simp [panelsOf] at h
  | cons hd tl ih =>
    intro p h
    simp only [locatePanel]
    by_cases hp : p < hd.2.geom.n_panels
    · exact ⟨hd.1, hd.2, p, by rw [if_pos hp]⟩
    · rw [if_neg hp]
      apply ih
      simp only [panelsOf, List.map_cons, List.sum_cons] at h
      simp only [panelsOf]
      omega

theorem mem_nonWakeSurfaces_body (env : SolverEnv) (b : BodyEnv) (d : SurfaceRec)
    (h : (b, d) ∈ nonWakeSurfaces env) : b ∈ env.bodies := by
  simp only [nonWakeSurfaces, List.mem_flatMap, List.mem_append, List.mem_map] at h
  obtain ⟨b', hb', hcase⟩ := h
  rcases hcase with ⟨x, _, hx⟩ | ⟨x, _, hx⟩ <;>
  · cases hx
    exact hb'

theorem sourceWriteList_lt (env : SolverEnv) (s : SolverState) (incl : Bool) :
    ∀ (l : List (BodyEnv × SurfaceRec)) (off sIdx : ℕ) (src : ℕ → ℚ) (q : ℕ),
      q < off → sourceWriteList env s incl l off sIdx src q = src q := by
  intro l
  induction l with
  | nil => intro off sIdx src q _; rfl
  | cons hd tl ih =>
    intro off sIdx src q hq
    cases hd with
    | mk b d =>
      simp only [sourceWriteList]
      rw [ih _ _ _ q (by omega)]
      exact writeLoop_out _ _ _ _ q (Or.inl hq)

theorem sourceWriteList_char (env : SolverEnv) (s : SolverState) (incl : Bool) :
    ∀ (l : List (BodyEnv × SurfaceRec)) (off sIdx : ℕ) (src : ℕ → ℚ) (p : ℕ)
      (b : BodyEnv) (d : SurfaceRec) (i : ℕ), locatePanel l p = some (b, d, i) →
      ∃ j, sourceWriteList env s incl l off sIdx src (off + p) =
        compute_source_coefficient env s b d j i incl := by
  intro l
  induction l with
  | nil => intro off sIdx src p b d i h; exact Option.noConfusion h
  | cons hd tl ih =>
    intro off sIdx src p b d i h
    cases hd with
    | mk b0 d0 =>
      simp only [locatePanel] at h
      split at h
      · cases h
        refine ⟨sIdx, ?_⟩
        simp only [sourceWriteList]
        rw [sourceWriteList_lt env s incl tl _ _ _ _ (by omega)]
        exact writeLoop_lt _ _ _ _ p (by assumption)
      · obtain ⟨j, hj⟩ := ih (off + d0.geom.n_panels) (sIdx + 1) _ (p - d0.geom.n_panels) b d i h
        refine ⟨j, ?_⟩
        simp only [sourceWriteList]
        have e : off + d0.geom.n_panels + (p - d0.geom.n_panels) = off + p := by omega
        rw [e] at hj
        exact hj

/-! ### Zero-flow helper lemmas -/

theorem Vec3.zero_dot (v : Vec3) : Vec3.zero.dot v = 0 := by
  simp [Vec3.dot, Vec3.zero]

theorem compute_source_coefficient_zero (env : SolverEnv) (s : SolverState) (b : BodyEnv)
    (d : SurfaceRec) (sIdx panel : ℕ) (incl : Bool)
    (hfree : env.freestream_velocity = Vec3.zero)
    (hkin : b.panel_kinematic_velocity d.geom.id panel = Vec3.zero)
    (hblow : s.blowing sIdx panel = 0)
    (hwd : ∀ a c, s.wakeDoublet a c = 0) :
    compute_source_coefficient env s b d sIdx panel incl = 0 := by
  rw [compute_source_coefficient_eq_claim]
  simp only [source_coefficient_claim]
  rw [hfree, hkin, hblow]
  have hsum : ((liftingEnum env).map fun fl =>
      ∑ k ∈ Finset.range (fl.2.wake.n_panels - fl.2.topo.n_spanwise_panels),
        (s.wakeDoublet fl.1 k) • fl.2.wake.vortex_ring_unit_velocity_on d.geom.id panel k).sum
      = (0 : Vec3) := by
    apply List.sum_eq_zero
    intro x hx
    simp only [List.mem_map] at hx
    obtain ⟨fl, _, hfl⟩ := hx
    rw [← hfl]
    apply Finset.sum_eq_zero
    intro k _
    rw [hwd fl.1 k]
    exact Vec3.zero_smul_vec _
  have hz : Vec3.zero - Vec3.zero = Vec3.zero := by
    simp [Vec3.sub_def, Vec3.zero]
  rw [hz]
  by_cases hc : env.params.convect_wake = true ∧ incl = true
  · rw [if_pos hc, hsum, Vec3.sub_zero_vec, Vec3.zero_dot]
    norm_num
  · rw [if_neg hc, Vec3.zero_dot]
    norm_num

theorem rhsVector_zero (env : SolverEnv) (src : ℕ → ℚ)
    (h : ∀ c, c < nPanels env → src c = 0) (r : ℕ) :
    rhsVector env src r = 0 := by
  unfold rhsVector
  apply Finset.sum_eq_zero
  intro c hc
  rw [h c (Finset.mem_range.mp hc)]
  ring

theorem wakeWriteLSLoop_zero (mu : ℕ → ℚ) (f off : ℕ) (l : LiftingRec)
    (hmu : ∀ i, mu i = 0) :
    ∀ (m : ℕ) (wd : ℕ → ℕ → ℚ), (∀ a b, wd a b = 0) →
      ∀ a b, wakeWriteLSLoop mu f off l wd m a b = 0 := by
  intro m
  induction m with
  | zero => intro wd hwd a b; exact hwd a b
  | succ m' ih =>
    intro wd hwd a b
    simp only [wakeWriteLSLoop, updateAt2]
    split
    · rw [hmu, hmu]; ring
    · exact ih wd hwd a b

theorem wakeDoubletWrites_zero (mu : ℕ → ℚ) (hmu : ∀ i, mu i = 0) :
    ∀ (ts : List (ℕ × ℕ × LiftingRec)) (wd : ℕ → ℕ → ℚ), (∀ a b, wd a b = 0) →
      ∀ a b, wakeDoubletWrites mu ts wd a b = 0 := by
  intro ts
  induction ts with
  | nil => intro wd hwd a b; exact hwd a b
  | cons t rest ih =>
    intro wd hwd a b
    simp only [wakeDoubletWrites]
    exact ih _ (wakeWriteLSLoop_zero mu t.1 t.2.1 t.2.2 hmu _ wd hwd) a b

theorem recalcBLList_dummy (s : SolverState) :
    ∀ (l : List (BodyEnv × SurfaceRec)) (off sIdx : ℕ) (acc : (ℕ → ℕ → ℚ) × Bool),
      (∀ p ∈ l, p.2.bl_is_dummy = true) → recalcBLList s l off sIdx acc = acc := by
  intro l
  induction l with
  | nil => intro off sIdx acc _; rfl
  | cons hd tl ih =>
    intro off sIdx acc h
    simp only [recalcBLList, h hd (List.mem_cons_self hd tl), if_true]
    exact ih _ _ acc (fun p hp => h p (List.mem_cons_of_mem hd hp))

theorem recalcBLPhase_dummy (env : SolverEnv) (s : SolverState)
    (h : ∀ p ∈ nonWakeSurfaces env, p.2.bl_is_dummy = true) :
    recalcBLPhase env s = (s, false) := by
  unfold recalcBLPhase
  rw [recalcBLList_dummy s (nonWakeSurfaces env) 0 0 (s.blowing, false) h]

/-! ### Pressure pass characterization -/

theorem phiPressureLoop_out (env : SolverEnv) (s : SolverState) (b : BodyEnv)
    (d : SurfaceRec) (off : ℕ) (vref2 dt : ℚ) :
    ∀ (n : ℕ) (pp : (ℕ → ℚ) × (ℕ → ℚ)) (q : ℕ), q < off ∨ off + n ≤ q →
      (phiPressureLoop env s b d off vref2 dt n pp).1 q = pp.1 q ∧
        (phiPressureLoop env s b d off vref2 dt n pp).2 q = pp.2 q := by
  intro n
  induction n with
  | zero => intro pp q _; exact ⟨rfl, rfl⟩
  | succ m ih =>
    intro pp q hq
    simp only [phiPressureLoop]
    constructor
    · rw [updateAt_other _ _ _ _ (by omega)]
      exact (ih pp q (by omega)).1
    · rw [updateAt_other _ _ _ _ (by omega)]
      exact (ih pp q (by omega)).2

theorem phiPressureLoop_at (env : SolverEnv) (s : SolverState) (b : BodyEnv)
    (d : SurfaceRec) (off : ℕ) (vref2 dt : ℚ) :
    ∀ (n : ℕ) (pp : (ℕ → ℚ) × (ℕ → ℚ)) (i : ℕ), i < n →
      (phiPressureLoop env s b d off vref2 dt n pp).1 (off + i) =
          compute_surface_velocity_potential env s b d off i ∧
        (phiPressureLoop env s b d off vref2 dt n pp).2 (off + i) =
          compute_pressure_coefficient (s.surfVel (off + i))
            (if env.params.unsteady_bernoulli = true ∧ 0 < dt then
              (compute_surface_velocity_potential env s b d off i -
                s.phiPrev (off + i)) / dt
             else 0)
            vref2 := by
  intro n
  induction n with
  | zero => intro pp i h; omega
  | succ m ih =>
    intro pp i hi
    by_cases him : i = m
    · subst him
      simp only [phiPressureLoop]
      constructor
      · exact updateAt_same _ _ _
      · rw [updateAt_same]
        simp only [compute_surface_velocity_potential_time_derivative, updateAt_same]
    · have hlt : i < m := by omega
      simp only [phiPressureLoop]
      constructor
      · rw [updateAt_other _ _ _ _ (by omega)]
        exact (ih pp i hlt).1
      · rw [updateAt_other _ _ _ _ (by omega)]
        exact (ih pp i hlt).2

theorem phiPressureList_lt (env : SolverEnv) (s : SolverState) (dt : ℚ) :
    ∀ (l : List (BodyEnv × SurfaceRec)) (off : ℕ) (pp : (ℕ → ℚ) × (ℕ → ℚ)) (q : ℕ),
      q < off →
      (phiPressureList env s dt l off pp).1 q = pp.1 q ∧
        (phiPressureList env s dt l off pp).2 q = pp.2 q := by
  intro l
  induction l with
  | nil => intro off pp q _; exact ⟨rfl, rfl⟩
  | cons hd tl ih =>
    intro off pp q hq
    cases hd with
    | mk b d =>
      simp only [phiPressureList]
      have h1 := ih (off + d.geom.n_panels)
        (phiPressureLoop env s b d off (compute_reference_velocity_squared env b) dt
          d.geom.n_panels pp) q (by omega)
      have h2 := phiPressureLoop_out env s b d off
        (compute_reference_velocity_squared env b) dt d.geom.n_panels pp q (Or.inl hq)
      exact ⟨h1.1.trans h2.1, h1.2.trans h2.2⟩

theorem phiPressureList_char (env : SolverEnv) (s : SolverState) (dt : ℚ) :
    ∀ (l : List (BodyEnv × SurfaceRec)) (off : ℕ) (pp : (ℕ → ℚ) × (ℕ → ℚ)) (p : ℕ)
      (b : BodyEnv) (d : SurfaceRec) (i : ℕ), locatePanel l p = some (b, d, i) →
      (phiPressureList env s dt l off pp).1 (off + p) =
          compute_surface_velocity_potential env s b d (off + (p - i)) i ∧
        (phiPressureList env s dt l off pp).2 (off + p) =
          compute_pressure_coefficient (s.surfVel (off + p))
            (if env.params.unsteady_bernoulli = true ∧ 0 < dt then
              (compute_surface_velocity_potential env s b d (off + (p - i)) i -
                s.phiPrev (off + p)) / dt
             else 0)
            (compute_reference_velocity_squared env b) := by
  intro l
  induction l with
  | nil => intro off pp p b d i h; exact Option.noConfusion h
  | cons hd tl ih =>
    intro off pp p b d i h
    cases hd with
    | mk b0 d0 =>
      simp only [locatePanel] at h
      split at h
      · cases h
        simp only [phiPressureList]
        have hout := phiPressureList_lt env s dt tl (off + d.geom.n_panels)
          (phiPressureLoop env s b d off (compute_reference_velocity_squared env b) dt
            d.geom.n_panels pp) (off + p) (by omega)
        have hat := phiPressureLoop_at env s b d off
          (compute_reference_velocity_squared env b) dt d.geom.n_panels pp p (by omega)
        have hpp : p - p = 0 := by omega
        rw [hpp, Nat.add_zero]
        exact ⟨hout.1.trans hat.1, hout.2.trans hat.2⟩
      · rename_i hnp
        simp only [phiPressureList]
        have hle := locatePanel_i_le tl (p - d0.geom.n_panels) b d i h
        have e1 : off + d0.geom.n_panels + (p - d0.geom.n_panels) = off + p := by omega
        have e2 : off + d0.geom.n_panels + (p - d0.geom.n_panels - i) = off + (p - i) := by
          omega
        have := ih (off + d0.geom.n_panels)
          (phiPressureLoop env s b0 d0 off (compute_reference_velocity_squared env b0) dt
            d0.geom.n_panels pp) (p - d0.geom.n_panels) b d i h
        rw [e1, e2] at this
        exact this

/-! ### C4: the pressure coefficient formula -/

/-- C4.  For every registered panel, the pressure coefficient stored by a
successful solve equals 1 - (|v_surf|^2 + 2 dphi/dt) / V_ref^2 with
V_ref^2 = |v_body - v_freestream|^2, where dphi/dt is (phi - phi_prev)/dt
when unsteady_bernoulli is enabled and dt > 0 and is 0 otherwise; with
unsteady_bernoulli disabled or dt = 0 the stored pressure depends only on
the surface velocity and the reference velocity (no coupling to the
previous potentials). -/
theorem pressure_coefficient_formula (env : SolverEnv) (dt : ℚ) (prop : Bool)
    (s₀ s' : SolverState) (p : ℕ) (b : BodyEnv) (d : SurfaceRec) (i : ℕ)
    (hsolve : solve env dt prop s₀ = (true, s'))
    (hloc : locatePanel (nonWakeSurfaces env) p = some (b, d, i)) :
    (s'.pressure p =
        1 - ((s'.surfVel p).squaredNorm +
              2 * (if env.params.unsteady_bernoulli = true ∧ 0 < dt then
                    (s'.phi p - s₀.phiPrev p) / dt
                   else 0)) /
            (b.velocity - env.freestream_velocity).squaredNorm) ∧
      ((env.params.unsteady_bernoulli = false ∨ dt = 0) →
        s'.pressure p =
          1 - (s'.surfVel p).squaredNorm /
              (b.velocity - env.freestream_velocity).squaredNorm) := by
  have hmain : s'.pressure p =
      1 - ((s'.surfVel p).squaredNorm +
            2 * (if env.params.unsteady_bernoulli = true ∧ 0 < dt then
                  (s'.phi p - s₀.phiPrev p) / dt
                 else 0)) /
          (b.velocity - env.freestream_velocity).squaredNorm := by
    unfold solve at hsolve
    cases hloop : solveLoop env (loopFuel env) 0 s₀ with
    | fail t =>
      rw [hloop] at hsolve
      exact Bool.noConfusion (congrArg Prod.fst hsolve)
    | exhausted t =>
      rw [hloop] at hsolve
      exact Bool.noConfusion (congrArg Prod.fst hsolve)
    | ok t =>
      rw [hloop] at hsolve
      have hprev : t.phiPrev = s₀.phiPrev :=
        (solveLoop_ok_preserves env (loopFuel env) 0 s₀ t hloop).1
      have hs' : s' = (if prop = true then
          propagate (phiPressurePhase env dt
            (if env.params.convect_wake = true then computeSourcesPhase env false t else t))
          else phiPressurePhase env dt
            (if env.params.convect_wake = true then computeSourcesPhase env false t
              else t)) := by
        have h2 := congrArg Prod.snd hsolve
        simpa using h2.symm
      subst hs'
      have hA1 : (if env.params.convect_wake = true then computeSourcesPhase env false t
          else t).phiPrev = s₀.phiPrev := by
        cases env.params.convect_wake <;> simpa using hprev
      revert hA1
      generalize (if env.params.convect_wake = true then computeSourcesPhase env false t
          else t) = sA
      intro hA1
      have hfix : ∀ X : SolverState,
          (if prop = true then propagate X else X).pressure = X.pressure ∧
            (if prop = true then propagate X else X).phi = X.phi ∧
            (if prop = true then propagate X else X).surfVel = X.surfVel := by
        intro X
        cases prop <;> exact ⟨rfl, rfl, rfl⟩
      rw [(hfix _).1, (hfix _).2.1, (hfix _).2.2]
      have hchar := phiPressureList_char env sA dt (nonWakeSurfaces env) 0
        (sA.phi, sA.pressure) p b d i hloc
      simp only [Nat.zero_add] at hchar
      show (phiPressureList env sA dt (nonWakeSurfaces env) 0 (sA.phi, sA.pressure)).2 p = _
      rw [hchar.2]
      have hphi : (phiPressurePhase env dt sA).phi p =
          compute_surface_velocity_potential env sA b d (p - i) i := hchar.1
      rw [hphi]
      rw [show sA.phiPrev p = s₀.phiPrev p from congrFun hA1 p]
      rfl
  refine ⟨hmain, fun hcase => ?_⟩
  rw [hmain]
  have hzero : (if env.params.unsteady_bernoulli = true ∧ 0 < dt then
      (s'.phi p - s₀.phiPrev p) / dt else 0) = 0 := by
    rcases hcase with hu | hdt
    · rw [if_neg]
      intro hand
      rw [hu] at hand
      exact Bool.noConfusion hand.1
    · rw [if_neg]
      intro hand
      rw [hdt] at hand
      exact lt_irrefl 0 hand.2
  rw [hzero]
  ring_nf

/-- Witness for C4: in the concrete quiescent environment, the stored
pressure coefficient depends only on surface velocity and reference
velocity. -/
theorem pressure_coefficient_formula_witness :
    (solve cenvOk 1 false zeroState).2.pressure 0 =
      1 - (((solve cenvOk 1 false zeroState).2.surfVel 0).squaredNorm) /
          (cBody.velocity - cenvOk.freestream_velocity).squaredNorm := by
  have h1 : (solve cenvOk 1 false zeroState).1 = true := rfl
  have hsolve : solve cenvOk 1 false zeroState =
      (true, (solve cenvOk 1 false zeroState).2) := by
    rw [← h1]
  exact (pressure_coefficient_formula cenvOk 1 false zeroState
    (solve cenvOk 1 false zeroState).2 0 cBody (cSurfRec 7) 0 hsolve rfl).2
    (Or.inl rfl)

/-! ### C6: the quiescent-flow law -/

theorem compute_reference_velocity_squared_zero (env : SolverEnv) (b : BodyEnv)
    (hv : b.velocity = Vec3.zero) (hf : env.freestream_velocity = Vec3.zero) :
    compute_reference_velocity_squared env b = 0 := by
  unfold compute_reference_velocity_squared
  rw [hv, hf]
  simp [Vec3.sub_def, Vec3.squaredNorm, Vec3.dot, Vec3.zero]

theorem compute_pressure_coefficient_vref_zero (v : Vec3) (q : ℚ) :
    compute_pressure_coefficient v q 0 = 1 := by
  unfold compute_pressure_coefficient
  simp

theorem ite_sources_fields (env : SolverEnv) (t : SolverState) :
    ((if env.params.convect_wake = true then computeSourcesPhase env false t
        else t).doublet = t.doublet) ∧
      ((if env.params.convect_wake = true then computeSourcesPhase env false t
        else t).wakeDoublet = t.wakeDoublet) ∧
      ((if env.params.convect_wake = true then computeSourcesPhase env false t
        else t).surfVel = t.surfVel) ∧
      ((if env.params.convect_wake = true then computeSourcesPhase env false t
        else t).blowing = t.blowing) ∧
      ((if env.params.convect_wake = true then computeSourcesPhase env false t
        else t).phiPrev = t.phiPrev) := by
  cases env.params.convect_wake <;> exact ⟨rfl, rfl, rfl, rfl, rfl⟩

theorem phiPressurePhase_fields (env : SolverEnv) (dt : ℚ) (s : SolverState) :
    (phiPressurePhase env dt s).doublet = s.doublet ∧
      (phiPressurePhase env dt s).wakeDoublet = s.wakeDoublet ∧
      (phiPressurePhase env dt s).source = s.source ∧
      (phiPressurePhase env dt s).surfVel = s.surfVel :=
  ⟨rfl, rfl, rfl, rfl⟩

theorem ite_prop_fields (prop : Bool) (X : SolverState) :
    ((if prop = true then propagate X else X).doublet = X.doublet) ∧
      ((if prop = true then propagate X else X).wakeDoublet = X.wakeDoublet) ∧
      ((if prop = true then propagate X else X).source = X.source) ∧
      ((if prop = true then propagate X else X).pressure = X.pressure) := by
  cases prop <;> exact ⟨rfl, rfl, rfl, rfl⟩

/-- C6 (amended).  With zero freestream, resting bodies, dummy boundary
layers and a zeroed initial state, a solve step whose linear solver maps a
zero right-hand side with zero warm start to the zero solution (the
BiCGSTAB behaviour) succeeds and yields exactly zero source, doublet and
wake doublet coefficients — but the pressure coefficients are NOT zero:
the reference velocity squared vanishes, so Cp = 1 - (…)/0 is a division
by zero (NaN in the C++ doubles); in this exact model with x/0 = 0 every
stored pressure coefficient equals 1. -/
theorem zero_flow_amended (env : SolverEnv) (dt : ℚ) (prop : Bool) (s₀ : SolverState)
    (hfree : env.freestream_velocity = Vec3.zero)
    (hkin : ∀ b ∈ env.bodies, ∀ sid pan, b.panel_kinematic_velocity sid pan = Vec3.zero)
    (hvel : ∀ b ∈ env.bodies, b.velocity = Vec3.zero)
    (hdum : ∀ q ∈ nonWakeSurfaces env, q.2.bl_is_dummy = true)
    (hblow : ∀ a c, s₀.blowing a c = 0)
    (hwd : ∀ a c, s₀.wakeDoublet a c = 0)
    (hmu : ∀ i, s₀.doublet i = 0)
    (hls : ∀ A bv g, (∀ i, bv i = 0) → (∀ i, g i = 0) →
        ∃ mu it er, env.linSolve A bv g = LinResult.success mu it er ∧ ∀ i, mu i = 0) :
    ∃ s', solve env dt prop s₀ = (true, s') ∧
      (∀ i, s'.doublet i = 0) ∧
      (∀ a c, s'.wakeDoublet a c = 0) ∧
      (∀ p b d i, locatePanel (nonWakeSurfaces env) p = some (b, d, i) → s'.source p = 0) ∧
      (∀ p b d i, locatePanel (nonWakeSurfaces env) p = some (b, d, i) →
        s'.pressure p = 1) := by
  -- sources computed on any blowing-free, wake-free state vanish
  have hsrczero : ∀ (s : SolverState) (incl : Bool), (∀ a c, s.blowing a c = 0) →
      (∀ a c, s.wakeDoublet a c = 0) →
      ∀ p bb dd i, locatePanel (nonWakeSurfaces env) p = some (bb, dd, i) →
        (computeSourcesPhase env incl s).source p = 0 := by
    intro s incl hb hw p bb dd i hp
    obtain ⟨j, hj⟩ :=
      sourceWriteList_char env s incl (nonWakeSurfaces env) 0 0 s.source p bb dd i hp
    rw [Nat.zero_add] at hj
    show sourceWriteList env s incl (nonWakeSurfaces env) 0 0 s.source p = 0
    rw [hj]
    exact compute_source_coefficient_zero env s bb dd j i incl hfree
      (hkin bb (mem_nonWakeSurfaces_body env bb dd (locatePanel_mem _ p bb dd i hp))
        dd.geom.id i)
      (hb j i) hw
  have h1src : ∀ p bb dd i, locatePanel (nonWakeSurfaces env) p = some (bb, dd, i) →
      (sourcesState env s₀).source p = 0 :=
    fun p bb dd i hp => hsrczero s₀ true hblow hwd p bb dd i hp
  have hrhs : ∀ i, rhsVector env (sourcesState env s₀).source i = 0 := by
    intro r
    apply rhsVector_zero
    intro c hc
    obtain ⟨bb, dd, i, hcloc⟩ := locatePanel_isSome_of_lt (nonWakeSurfaces env) c hc
    exact h1src c bb dd i hcloc
  obtain ⟨mu, it, er, hlc, hmu0⟩ := hls (doubletMatrix env)
    (rhsVector env (sourcesState env s₀).source) (sourcesState env s₀).doublet hrhs hmu
  have hstep : iterStep env 0 s₀ = StepRes.doneStep
      (surfVelPhase env (wakeDoubletPhase env
        { sourcesState env s₀ with doublet := mu })) := by
    have hlinCall : linCall env (sourcesState env s₀) = LinResult.success mu it er := hlc
    simp only [iterStep, hlinCall]
    simp only [stepSuccess, convergedAt_zero]
    rw [recalcBLPhase_dummy env _ hdum]
    simp
  have hloop : solveLoop env (loopFuel env) 0 s₀ = LoopRes.ok
      (surfVelPhase env (wakeDoubletPhase env
        { sourcesState env s₀ with doublet := mu })) := by
    show solveLoop env (env.params.max_boundary_layer_iterations + 1 + 1) 0 s₀ = _
    simp only [solveLoop, hstep]
  -- the post-loop state and its fields
  have hT4d : (surfVelPhase env (wakeDoubletPhase env
      { sourcesState env s₀ with doublet := mu })).doublet = mu := rfl
  have hT4w : ∀ a c, (surfVelPhase env (wakeDoubletPhase env
      { sourcesState env s₀ with doublet := mu })).wakeDoublet a c = 0 := by
    intro a c
    show wakeDoubletWrites mu (liftTriples env) (sourcesState env s₀).wakeDoublet a c = 0
    exact wakeDoubletWrites_zero mu hmu0 (liftTriples env) _ hwd a c
  have hT4b : ∀ a c, (surfVelPhase env (wakeDoubletPhase env
      { sourcesState env s₀ with doublet := mu })).blowing a c = 0 := hblow
  have hsolve : solve env dt prop s₀ = (true,
      if prop = true then
        propagate (phiPressurePhase env dt
          (if env.params.convect_wake = true then
            computeSourcesPhase env false (surfVelPhase env (wakeDoubletPhase env
              { sourcesState env s₀ with doublet := mu }))
          else surfVelPhase env (wakeDoubletPhase env
              { sourcesState env s₀ with doublet := mu })))
      else phiPressurePhase env dt
          (if env.params.convect_wake = true then
            computeSourcesPhase env false (surfVelPhase env (wakeDoubletPhase env
              { sourcesState env s₀ with doublet := mu }))
          else surfVelPhase env (wakeDoubletPhase env
              { sourcesState env s₀ with doublet := mu }))) := by
    simp only [solve, hloop]
  refine ⟨_, hsolve, ?_, ?_, ?_, ?_⟩
  · intro i
    rw [(ite_prop_fields prop _).1, (phiPressurePhase_fields env dt _).1,
      (ite_sources_fields env _).1]
    exact hmu0 i
  · intro a c
    rw [(ite_prop_fields prop _).2.1, (phiPressurePhase_fields env dt _).2.1,
      (ite_sources_fields env _).2.1]
    exact hT4w a c
  · intro p bb dd i hp
    rw [(ite_prop_fields prop _).2.2.1, (phiPressurePhase_fields env dt _).2.2.1]
    cases hcw : env.params.convect_wake with
    | true =>
      simp only [if_pos]
      exact hsrczero _ false hT4b hT4w p bb dd i hp
    | false =>
      simp only [Bool.false_eq_true, if_false]
      show (sourcesState env s₀).source p = 0
      exact h1src p bb dd i hp
  · intro p bb dd i hp
    rw [(ite_prop_fields prop _).2.2.2]
    generalize (if env.params.convect_wake = true then
        computeSourcesPhase env false (surfVelPhase env (wakeDoubletPhase env
          { sourcesState env s₀ with doublet := mu }))
      else surfVelPhase env (wakeDoubletPhase env
          { sourcesState env s₀ with doublet := mu })) = X
    have hchar := phiPressureList_char env X dt (nonWakeSurfaces env) 0
      (X.phi, X.pressure) p bb dd i hp
    simp only [Nat.zero_add] at hchar
    rw [show (phiPressurePhase env dt X).pressure =
        (phiPressureList env X dt (nonWakeSurfaces env) 0 (X.phi, X.pressure)).2 from rfl]
    rw [hchar.2]
    rw [compute_reference_velocity_squared_zero env bb
      (hvel bb (mem_nonWakeSurfaces_body env bb dd (locatePanel_mem _ p bb dd i hp))) hfree]
    exact compute_pressure_coefficient_vref_zero _ _

/-- Witness for the amended C6: the quiescent concrete environment
satisfies every hypothesis, so one solve step zeroes the coefficients and
pins every pressure coefficient at 1. -/
theorem zero_flow_amended_witness :
    ∃ s', solve cenvZero 1 false zeroState = (true, s') ∧
      (∀ i, s'.doublet i = 0) ∧
      (∀ a c, s'.wakeDoublet a c = 0) ∧
      (∀ p b d i, locatePanel (nonWakeSurfaces cenvZero) p = some (b, d, i) →
        s'.source p = 0) ∧
      (∀ p b d i, locatePanel (nonWakeSurfaces cenvZero) p = some (b, d, i) →
        s'.pressure p = 1) :=
  zero_flow_amended cenvZero 1 false zeroState rfl
    (by intro b hb sid pan; simp [cenvZero] at hb; subst hb; rfl)
    (by intro b hb; simp [cenvZero] at hb; subst hb; rfl)
    (by decide)
    (fun _ _ => rfl) (fun _ _ => rfl) (fun _ => rfl)
    (fun _ _ _ _ _ => ⟨fun _ => 0, 1, 0, rfl, fun _ => rfl⟩)

theorem ite_prop_more_fields (prop : Bool) (X : SolverState) :
    ((if prop = true then propagate X else X).surfVel = X.surfVel) ∧
      ((if prop = true then propagate X else X).phi = X.phi) := by
  cases prop <;> exact ⟨rfl, rfl⟩

theorem solve_pressure_char (env : SolverEnv) (dt : ℚ) (prop : Bool)
    (s₀ s' : SolverState) (p : ℕ) (b : BodyEnv) (d : SurfaceRec) (i : ℕ)
    (hsolve : solve env dt prop s₀ = (true, s'))
    (hloc : locatePanel (nonWakeSurfaces env) p = some (b, d, i)) :
    ∃ q, s'.pressure p = compute_pressure_coefficient (s'.surfVel p) q
      (compute_reference_velocity_squared env b) := by
  unfold solve at hsolve
  cases hloop : solveLoop env (loopFuel env) 0 s₀ with
  | fail t =>
    rw [hloop] at hsolve
    exact Bool.noConfusion (congrArg Prod.fst hsolve)
  | exhausted t =>
    rw [hloop] at hsolve
    exact Bool.noConfusion (congrArg Prod.fst hsolve)
  | ok t =>
    rw [hloop] at hsolve
    have hs' : s' = (if prop = true then
        propagate (phiPressurePhase env dt
          (if env.params.convect_wake = true then computeSourcesPhase env false t else t))
        else phiPressurePhase env dt
          (if env.params.convect_wake = true then computeSourcesPhase env false t
            else t)) := by
      have h2 := congrArg Prod.snd hsolve
      simpa using h2.symm
    subst hs'
    generalize (if env.params.convect_wake = true then computeSourcesPhase env false t
        else t) = sA
    rw [(ite_prop_fields prop _).2.2.2, (ite_prop_more_fields prop _).1]
    rw [(phiPressurePhase_fields env dt sA).2.2.2]
    have hchar := phiPressureList_char env sA dt (nonWakeSurfaces env) 0
      (sA.phi, sA.pressure) p b d i hloc
    simp only [Nat.zero_add] at hchar
    refine ⟨if env.params.unsteady_bernoulli = true ∧ 0 < dt then
        (compute_surface_velocity_potential env sA b d (p - i) i - sA.phiPrev p) / dt
      else 0, ?_⟩
    rw [show (phiPressurePhase env dt sA).pressure =
        (phiPressureList env sA dt (nonWakeSurfaces env) 0 (sA.phi, sA.pressure)).2 from rfl]
    exact hchar.2

/-- Counterexample to C6 as stated: with zero freestream and a resting
body, one successful solve step leaves a pressure coefficient equal to 1
(the reference velocity squared is 0, so Cp is a division by zero — NaN in
the C++ doubles, 1 in this exact model), far above the solver tolerance,
refuting the claim that all pressure coefficients are zero to solver
tolerance. -/
theorem zero_flow_pressure_counterexample :
    (solve cenvZero 1 false zeroState).1 = true ∧
      (solve cenvZero 1 false zeroState).2.pressure 0 = 1 ∧
      cenvZero.params.linear_solver_tolerance < 1 := by
  have h1 : (solve cenvZero 1 false zeroState).1 = true := rfl
  have hsolve : solve cenvZero 1 false zeroState =
      (true, (solve cenvZero 1 false zeroState).2) := by
    rw [← h1]
  obtain ⟨q, hq⟩ := solve_pressure_char cenvZero 1 false zeroState
    (solve cenvZero 1 false zeroState).2 0 cBody (cSurfRec 7) 0 hsolve rfl
  refine ⟨h1, ?_, by norm_num [cenvZero, cParams]⟩
  rw [hq]
  rw [compute_reference_velocity_squared_zero cenvZero cBody rfl rfl]
  exact compute_pressure_coefficient_vref_zero _ _

end VortexjeModel
